import Mathlib

/-!
Build orchestration of `spk build` (cmd/build.go).

A shallow embedding of the dependency resolver (`getDependencies`), the link
reconciler (`autoLinkDependencies`, `autoLinkToConsumers`) and the build sequencer
(`buildRepo`, `buildRecursively`) of `cmd/build.go`, followed by the theorems that
settle the specification's statements about them.

Go maps are association lists read with `List.lookup`; Go `error` values are
`Option String` (`none` is `nil`); the file system, the package manager and the shell
are an explicit world `σ` driven through the operations of an `Env σ`, and every call
of a mutating operation and every printed line is appended to an event log.
-/

namespace Spark

/-! ## Data model -/

/-- Modelled from the spec: the `workspace.RepoDef` record, whose declaration lives in
`internal/workspace` and is not part of the sources; these are the fields that
`cmd/build.go` and `cmd/test.go` read. The default is Go's zero value. -/
structure RepoDef where
  Path : String := ""
  BuildCommand : String := ""
  TestCommand : String := ""
  Dependencies : List String := []
deriving DecidableEq, Repr, Inhabited

/-- Modelled from the spec: `workspace.Workspace`, of which the build command reads only
the `Repos` map (repository name to definition). -/
structure Workspace where
  Repos : List (String × RepoDef)
deriving Repr

/-- The two-valued map read `repo, ok := ws.Repos[name]`. -/
def Workspace.find (ws : Workspace) (name : String) : Option RepoDef :=
  ws.Repos.lookup name

/-- The `ok` of `_, ok := ws.Repos[name]`. -/
def Workspace.has (ws : Workspace) (name : String) : Bool :=
  (ws.find name).isSome

/-- The one-valued map read `ws.Repos[name]`: the zero `RepoDef` when the key is absent. -/
def Workspace.get (ws : Workspace) (name : String) : RepoDef :=
  (ws.find name).getD {}

/-- The table `knownBuildCommands` (build.go, lines 19-24), as a two-valued map read. -/
def knownBuildCommands : String → Option String
  | "AppModel" => some "npm run build:all"
  | "BusinessModel" => some "npm run build:all"
  | "AppAPI" => some "npm run build"
  | "BusinessAPI" => some "npm run build"
  | _ => none

/-- The struct `depMapping` (build.go, lines 26-29); the default is its zero value. -/
structure depMapping where
  api : String := ""
  pkg : String := ""
deriving DecidableEq, Repr, Inhabited

/-- The table `modelToAPI` (build.go, lines 31-34), as a two-valued map read. -/
def modelToAPI : String → Option depMapping
  | "AppModel" => some { api := "AppAPI", pkg := "@spark-rewards/sra-sdk" }
  | "BusinessModel" => some { api := "BusinessAPI", pkg := "@spark-rewards/srw-sdk" }
  | _ => none

/-- The table `apiToModel` (build.go, lines 36-39), as a two-valued map read. -/
def apiToModel : String → Option String
  | "AppAPI" => some "AppModel"
  | "BusinessAPI" => some "BusinessModel"
  | _ => none

/-! ## Dependency graph resolver -/

/-- The function `contains` (build.go, lines 333-340). -/
def contains : List String → String → Bool
  | [], _ => false
  | s :: rest, item => if s = item then true else contains rest item

/-- The two variables the closure `collect` captures: the `seen` map (the list of the
names marked `true`, most recent first) and the `deps` slice. -/
structure Acc where
  seen : List String
  deps : List String
deriving DecidableEq, Repr

/-- The loop `for _, dep := range repo.Dependencies` of `collect` (build.go, lines
310-317); `self` is the recursive call `collect`. -/
def collectEach (ws : Workspace) (self : String → Acc → Option Acc) :
    List String → Acc → Option Acc
  | [], st => some st
  | dep :: rest, st =>
    if ws.has dep then
      match self dep st with
      | none => none
      | some st1 =>
        if contains st1.deps dep then collectEach ws self rest st1
        else collectEach ws self rest { st1 with deps := st1.deps ++ [dep] }
    else collectEach ws self rest st

/-- The closure `collect` of `getDependencies` (build.go, lines 296-319). The first
argument bounds the depth of the recursion; `none` means the bound was reached. -/
def collect (ws : Workspace) : Nat → String → Acc → Option Acc
  | 0, _, _ => none
  | fuel + 1, n, st =>
    if n ∈ st.seen then some st
    else
      let st0 : Acc := { st with seen := n :: st.seen }
      let st1? : Option Acc :=
        match apiToModel n with
        | some modelName =>
          if ws.has modelName then
            match collect ws fuel modelName st0 with
            | none => none
            | some s => some { s with deps := s.deps ++ [modelName] }
          else some st0
        | none => some st0
      match st1? with
      | none => none
      | some st1 =>
        match ws.find n with
        | some repo => collectEach ws (collect ws fuel) repo.Dependencies st1
        | none => some st1

/-- The depth bound that `getDependencies` runs `collect` with: only the target and
registered names are ever marked, so the recursion is never deeper than this. -/
def depthBound (ws : Workspace) : Nat := ws.Repos.length + 2

/-- The function `getDependencies` (build.go, lines 291-331). The assignment `seen[name] = false` of
line 323 is not read afterwards and has no counterpart here. -/
def getDependencies (ws : Workspace) (name : String) : List String :=
  match collect ws (depthBound ws) name { seen := [], deps := [] } with
  | some st => st.deps.filter (fun d => d != name)
  | none => []

/-- The direct-dependency relation of the resolver: `u` depends on `v` when `v` is
registered and is either the producer that `apiToModel` gives for `u` or an entry of the
`Dependencies` of the registered repository `u`. -/
def edge (ws : Workspace) (u v : String) : Prop :=
  ws.has v = true ∧ (apiToModel u = some v ∨ ∃ r, ws.find u = some r ∧ v ∈ r.Dependencies)

/-- The dependency graph has no cycle: no name reaches itself by one or more edges. -/
def Acyclic (ws : Workspace) : Prop :=
  ∀ n, ¬ Relation.TransGen (edge ws) n n

/-- The names that `collect` can still mark during `getDependencies ws target`: the
target and the registered names, less those already in `seen`; the measure of the
recursion. -/
def unseen (ws : Workspace) (target : String) (seen : List String) : Nat :=
  ((insert target (ws.Repos.map Prod.fst).toFinset) \ seen.toFinset).card

/-- Every name in `deps` was visited, and every visited name that is no longer on the
call stack `S` has all its direct dependencies in `deps`. -/
def Closed (ws : Workspace) (S : List String) (st : Acc) : Prop :=
  (∀ x ∈ st.deps, x ∈ st.seen) ∧
    ∀ u ∈ st.seen, u ∉ S → ∀ v, edge ws u v → v ∈ st.deps

/-- In the list `l`, a name that has a direct dependency is preceded by it. -/
def Ordered (ws : Workspace) (l : List String) : Prop :=
  ∀ u v, edge ws u v → u ∈ l → v ∈ l ∧ List.indexOf v l < List.indexOf u l


/-! ## The outside world -/

/-- What the code distinguishes in the result of `os.Stat`: no error, an error for which
`os.IsNotExist` holds, any other error. -/
inductive StatResult where
  | ok
  | notExist
  | otherError
deriving DecidableEq, Repr

/-- One interaction with the outside, in the order performed: a line printed with
`fmt.Printf`/`fmt.Println`, a call of `npm.Link`, of `npm.LinkPackage` or of `runShell`;
the calls carry the error they returned (`none` for `nil`). -/
inductive Event where
  | print (text : String)
  | npmLink (dir : String) (err : Option String)
  | npmLinkPackage (dir pkg : String) (err : Option String)
  | shell (dir command : String) (err : Option String)
deriving DecidableEq, Repr

/-- Modelled from the spec: the external collaborators of the build command, none of
which is in the sources: `filepath.Join`, `os.Stat`, the Artifact State Probe of
`internal/npm` (`IsBuilt`, `IsLinked`, `BuildOutputDir`, `Link`, `LinkPackage`) and the
command execution behind `runShell`. The two predicates and `os.Stat` read the world
`σ`; the three operations return an error or `nil` and the world they leave. -/
structure Env (σ : Type) where
  join : String → String → String
  stat : σ → String → StatResult
  isBuilt : σ → String → Bool
  isLinked : σ → String → String → Bool
  buildOutputDir : σ → String → String
  link : σ → String → Option String × σ
  linkPackage : σ → String → String → Option String × σ
  run : σ → String → String → Option String × σ

/-- The state a command runs in: the outside world and the events so far. -/
structure Sys (σ : Type) where
  world : σ
  log : List Event
deriving DecidableEq

/-- Printing a line. -/
def say {σ : Type} (text : String) (s : Sys σ) : Sys σ :=
  { s with log := s.log ++ [Event.print text] }

/-- The function `fileExists` (build.go, lines 138-141): `os.Stat` returned no error. -/
def fileExists {σ : Type} (env : Env σ) (w : σ) (path : String) : Bool :=
  env.stat w path = StatResult.ok

/-- The test `_, err := os.Stat(dir); os.IsNotExist(err)`. -/
def isNotExist {σ : Type} (env : Env σ) (w : σ) (path : String) : Bool :=
  env.stat w path = StatResult.notExist

/-- A call of `npm.Link`. -/
def npmLink {σ : Type} (env : Env σ) (dir : String) (s : Sys σ) : Option String × Sys σ :=
  let r := env.link s.world dir
  (r.1, { world := r.2, log := s.log ++ [Event.npmLink dir r.1] })

/-- A call of `npm.LinkPackage`. -/
def npmLinkPackage {σ : Type} (env : Env σ) (dir pkg : String) (s : Sys σ) :
    Option String × Sys σ :=
  let r := env.linkPackage s.world dir pkg
  (r.1, { world := r.2, log := s.log ++ [Event.npmLinkPackage dir pkg r.1] })

/-- The function `runShell` (build.go, lines 342-349). -/
def runShell {σ : Type} (env : Env σ) (dir command : String) (s : Sys σ) :
    Option String × Sys σ :=
  let r := env.run s.world dir command
  (r.1, { world := r.2, log := s.log ++ [Event.shell dir command r.1] })

/-! ## Link reconciler and build sequencer -/

/-- The function `getBuildCommand` (build.go, lines 113-136). -/
def getBuildCommand {σ : Type} (env : Env σ) (w : σ) (name : String) (repo : RepoDef)
    (repoDir : String) : String :=
  if repo.BuildCommand ≠ "" then repo.BuildCommand
  else
    match knownBuildCommands name with
    | some cmd => cmd
    | none =>
      if fileExists env w (env.join repoDir "package.json") then "npm run build"
      else if fileExists env w (env.join repoDir "build.gradle") ||
          fileExists env w (env.join repoDir "build.gradle.kts") then "./gradlew build"
      else if fileExists env w (env.join repoDir "Makefile") then "make"
      else if fileExists env w (env.join repoDir "go.mod") then "go build ./..."
      else ""

/-- The function `autoLinkDependencies` (build.go, lines 183-221). -/
def autoLinkDependencies {σ : Type} (env : Env σ) (wsPath : String) (ws : Workspace)
    (name : String) (s : Sys σ) : Option String × Sys σ :=
  match apiToModel name with
  | none => (none, s)
  | some modelName =>
    match ws.find modelName with
    | none => (none, s)
    | some modelRepo =>
      let modelDir := env.join wsPath modelRepo.Path
      let apiDir := env.join wsPath (ws.get name).Path
      let mapping := (modelToAPI modelName).getD {}
      if !env.isBuilt s.world modelDir then
        (none, say ("Using published " ++ mapping.pkg ++ " (local not built)\n") s)
      else if env.isLinked s.world apiDir mapping.pkg then
        (none, say ("Using local " ++ modelName ++ " (already linked)\n") s)
      else
        let s1 := say ("Linking local " ++ modelName ++ " -> " ++ name ++ "...\n") s
        let buildDir := env.buildOutputDir s1.world modelDir
        match npmLink env buildDir s1 with
        | (some err, s2) => (some ("npm link in " ++ modelName ++ " failed: " ++ err), s2)
        | (none, s2) =>
          match npmLinkPackage env apiDir mapping.pkg s2 with
          | (some err, s3) => (some ("npm link " ++ mapping.pkg ++ " failed: " ++ err), s3)
          | (none, s3) =>
            (none, say ("Linked: " ++ name ++ " now uses local " ++ modelName ++ "\n") s3)

/-- The function `autoLinkToConsumers` (build.go, lines 223-262). -/
def autoLinkToConsumers {σ : Type} (env : Env σ) (wsPath : String) (ws : Workspace)
    (name : String) (s : Sys σ) : Option String × Sys σ :=
  match modelToAPI name with
  | none => (none, s)
  | some mapping =>
    match ws.find mapping.api with
    | none => (none, s)
    | some apiRepo =>
      let apiDir := env.join wsPath apiRepo.Path
      if isNotExist env s.world apiDir then (none, s)
      else
        let modelDir := env.join wsPath (ws.get name).Path
        let buildDir := env.buildOutputDir s.world modelDir
        if !env.isBuilt s.world modelDir then (none, s)
        else if env.isLinked s.world apiDir mapping.pkg then (none, s)
        else
          let s1 := say ("Auto-linking to consumer " ++ mapping.api ++ "...\n") s
          match npmLink env buildDir s1 with
          | (some err, s2) => (some ("npm link failed: " ++ err), s2)
          | (none, s2) =>
            match npmLinkPackage env apiDir mapping.pkg s2 with
            | (some err, s3) =>
              (some ("npm link " ++ mapping.pkg ++ " in " ++ mapping.api ++ " failed: " ++ err),
                s3)
            | (none, s3) =>
              (none, say ("Linked: " ++ mapping.api ++ " now uses local " ++ name ++ "\n") s3)

/-- The pre-build step of `buildRepo` (build.go, lines 154-160): the banner, then, unless
`buildPublished`, `autoLinkDependencies`, whose error is only printed as a warning. -/
def preBuild {σ : Type} (env : Env σ) (buildPublished : Bool) (wsPath : String)
    (ws : Workspace) (name : String) (s : Sys σ) : Sys σ :=
  let s1 := say ("=== Building " ++ name ++ " ===\n") s
  if !buildPublished then
    match autoLinkDependencies env wsPath ws name s1 with
    | (some err, s2) => say ("Warning: dependency linking issue: " ++ err ++ "\n") s2
    | (none, s2) => s2
  else s1

/-- The post-build step of `buildRepo` (build.go, lines 173-180): unless `buildPublished`,
`autoLinkToConsumers`, whose error is only printed as a note; then the success line. -/
def postBuild {σ : Type} (env : Env σ) (buildPublished : Bool) (wsPath : String)
    (ws : Workspace) (name : String) (s : Sys σ) : Sys σ :=
  let s1 :=
    if !buildPublished then
      match autoLinkToConsumers env wsPath ws name s with
      | (some err, s2) => say ("Note: " ++ err ++ "\n") s2
      | (none, s2) => s2
    else s
  say ("[ok] " ++ name ++ " built successfully\n") s1

/-- The function `buildRepo` (build.go, lines 143-181). -/
def buildRepo {σ : Type} (env : Env σ) (buildPublished : Bool) (wsPath : String)
    (ws : Workspace) (name : String) (s : Sys σ) : Option String × Sys σ :=
  match ws.find name with
  | none => (some ("repo '" ++ name ++ "' not found in workspace"), s)
  | some repo =>
    let repoDir := env.join wsPath repo.Path
    if isNotExist env s.world repoDir then
      (some ("repo directory " ++ repoDir ++ " does not exist"), s)
    else
      let s1 := preBuild env buildPublished wsPath ws name s
      let buildCmd := getBuildCommand env s1.world name repo repoDir
      if buildCmd = "" then
        (none, say ("No build command for '" ++ name ++ "' — skipping\n") s1)
      else
        match runShell env repoDir buildCmd (say ("Running: " ++ buildCmd ++ "\n") s1) with
        | (some err, s2) => (some ("build failed: " ++ err), s2)
        | (none, s2) => (none, postBuild env buildPublished wsPath ws name s2)

/-- The loop `for _, dep := range deps` of `buildRecursively` (build.go, lines 269-285). -/
def buildDeps {σ : Type} (env : Env σ) (buildPublished : Bool) (wsPath : String)
    (ws : Workspace) : List String → Sys σ → Option String × Sys σ
  | [], s => (none, s)
  | dep :: rest, s =>
    match ws.find dep with
    | none => buildDeps env buildPublished wsPath ws rest s
    | some repo =>
      let repoDir := env.join wsPath repo.Path
      if isNotExist env s.world repoDir then
        buildDeps env buildPublished wsPath ws rest
          (say ("[skip] " ++ dep ++ " (not cloned)\n\n") s)
      else
        match buildRepo env buildPublished wsPath ws dep s with
        | (some err, s1) => (some ("dependency build failed at '" ++ dep ++ "': " ++ err), s1)
        | (none, s1) => buildDeps env buildPublished wsPath ws rest (say "\n" s1)

/-- The `%v` rendering of a string slice: the elements between brackets, separated by
blanks. -/
def formatSlice (l : List String) : String :=
  "[" ++ " ".intercalate l ++ "]"

/-- The function `buildRecursively` (build.go, lines 264-289). -/
def buildRecursively {σ : Type} (env : Env σ) (buildPublished : Bool) (wsPath : String)
    (ws : Workspace) (target : String) (s : Sys σ) : Option String × Sys σ :=
  let deps := getDependencies ws target
  if deps.length > 0 then
    match buildDeps env buildPublished wsPath ws deps
        (say ("Building dependencies first: " ++ formatSlice deps ++ "\n\n") s) with
    | (some err, s1) => (some err, s1)
    | (none, s1) => buildRepo env buildPublished wsPath ws target s1
  else buildRepo env buildPublished wsPath ws target s

/-- The state in which the loop of `buildRecursively` starts: after the announcement of
lines 267-268 when there are dependencies, the initial state when there are none. -/
def announce {σ : Type} (deps : List String) (s : Sys σ) : Sys σ :=
  if deps.length > 0 then say ("Building dependencies first: " ++ formatSlice deps ++ "\n\n") s
  else s

/-! ## The sequencer as the specification words it -/

/-- The build cycles of section 4.3, step 2, as the specification words them: for each
dependency in order, skip it with a notice when its directory is not present, otherwise
perform a full single-repository build cycle. -/
def buildCycles {σ : Type} (env : Env σ) (buildPublished : Bool) (wsPath : String)
    (ws : Workspace) : List String → Sys σ → Sys σ
  | [], s => s
  | dep :: rest, s =>
    if isNotExist env s.world (env.join wsPath (ws.get dep).Path) then
      buildCycles env buildPublished wsPath ws rest
        (say ("[skip] " ++ dep ++ " (not cloned)\n\n") s)
    else
      buildCycles env buildPublished wsPath ws rest
        (say "\n" (buildRepo env buildPublished wsPath ws dep s).2)

/-- A call of `npm.Link` or `npm.LinkPackage`. -/
def Event.isLink : Event → Bool
  | Event.npmLink _ _ => true
  | Event.npmLinkPackage _ _ _ => true
  | _ => false

/-- A call of `runShell`. -/
def Event.isShell : Event → Bool
  | Event.shell _ _ _ => true
  | _ => false

/-- A printed line. -/
def Event.isPrint : Event → Bool
  | Event.print _ => true
  | _ => false

/-! ## Concrete registries and worlds -/

/-- A small world: the paths that do not exist, the directories with a local build
artifact, the (consumer directory, package) pairs that are linked, whether `npm link`
fails, whether it fails on its next call only, and the directories in which the build
command fails. -/
structure World where
  absent : List String := []
  built : List String := []
  linked : List (String × String) := []
  linkFails : Bool := false
  linkFailsOnce : Bool := false
  failing : List String := []
deriving DecidableEq, Repr

/-- The collaborators over `World`. -/
def simEnv : Env World where
  join := fun a b => if b = "" then a else if a = "" then b else a ++ "/" ++ b
  stat := fun w p => if p ∈ w.absent then StatResult.notExist else StatResult.ok
  isBuilt := fun w d => decide (d ∈ w.built)
  isLinked := fun w d p => decide ((d, p) ∈ w.linked)
  buildOutputDir := fun _ d => d ++ "/build"
  link := fun w _ =>
    if w.linkFails then (some "exit status 1", w)
    else if w.linkFailsOnce then (some "exit status 1", { w with linkFailsOnce := false })
    else (none, w)
  linkPackage := fun w d p => (none, { w with linked := (d, p) :: w.linked })
  run := fun w d _ => if d ∈ w.failing then (some "exit status 1", w) else (none, w)

/-- The registry of the scenarios: the producer `AppModel` and its consumer `AppAPI`. -/
def wsMA : Workspace :=
  { Repos := [("AppModel", { Path := "AppModel" }), ("AppAPI", { Path := "AppAPI" })] }

/-- A registry in which `T` lists the producer `AppModel` before its consumer `AppAPI`. -/
def wsDup : Workspace :=
  { Repos := [("T", { Dependencies := ["AppModel", "AppAPI"] }), ("AppModel", {}),
      ("AppAPI", {})] }

/-! ## Theorems: dependency graph resolver -/

theorem contains_iff (l : List String) (x : String) : contains l x = true ↔ x ∈ l := by
  induction l with
  | nil => simp [contains]
  | cons a t ih =>
    by_cases h : a = x
    · simp [contains, h]
    · have h2 : ¬ x = a := fun e => h e.symm
      simp [contains, h, h2, ih]

/-- Loop rule: an invariant `J` that every recursive call and every append keeps is kept
by the loop over the explicit dependencies, and afterwards every registered entry of the
list is in `deps`. -/
theorem collectEach_inv (ws : Workspace) (self : String → Acc → Option Acc)
    (J : Acc → Prop) (ds0 : List String)
    (hself : ∀ d st st', d ∈ ds0 → ws.has d = true → J st → self d st = some st' →
      J st' ∧ d ∈ st'.seen ∧ st.seen ⊆ st'.seen ∧ st.deps ⊆ st'.deps)
    (happ : ∀ d st, d ∈ ds0 → ws.has d = true → J st → d ∈ st.seen →
      J { st with deps := st.deps ++ [d] }) :
    ∀ ds st st', ds ⊆ ds0 → J st → collectEach ws self ds st = some st' →
      J st' ∧ st.seen ⊆ st'.seen ∧ st.deps ⊆ st'.deps ∧
        ∀ d ∈ ds, ws.has d = true → d ∈ st'.deps := by
  intro ds
  induction ds with
  | nil =>
    intro st st' _ hJ h
    simp only [collectEach, Option.some.injEq] at h
    subst h
    exact ⟨hJ, List.Subset.refl _, List.Subset.refl _, by simp⟩
  | cons d rest ih =>
    intro st st' hsub hJ h
    have hd0 : d ∈ ds0 := hsub (List.mem_cons_self _ _)
    have hrest : rest ⊆ ds0 := fun x hx => hsub (List.mem_cons_of_mem _ hx)
    simp only [collectEach] at h
    by_cases hreg : ws.has d = true
    · rw [if_pos hreg] at h
      cases hc : self d st with
      | none => rw [hc] at h; simp at h
      | some st1 =>
        rw [hc] at h
        simp only at h
        obtain ⟨hJ1, hseen1, hs1, hd1⟩ := hself d st st1 hd0 hreg hJ hc
        by_cases hcon : contains st1.deps d = true
        · rw [if_pos hcon] at h
          obtain ⟨hJ', hs', hd', hall⟩ := ih st1 st' hrest hJ1 h
          refine ⟨hJ', hs1.trans hs', hd1.trans hd', ?_⟩
          intro x hx hxreg
          rcases List.mem_cons.mp hx with rfl | hx
          · exact hd' ((contains_iff _ _).mp hcon)
          · exact hall x hx hxreg
        · rw [if_neg hcon] at h
          have hJ2 := happ d st1 hd0 hreg hJ1 hseen1
          obtain ⟨hJ', hs', hd', hall⟩ := ih _ st' hrest hJ2 h
          refine ⟨hJ', hs1.trans hs', ?_, ?_⟩
          · intro x hx
            exact hd' (List.mem_append_left _ (hd1 hx))
          · intro x hx hxreg
            rcases List.mem_cons.mp hx with rfl | hx
            · exact hd' (by simp)
            · exact hall x hx hxreg
    · rw [if_neg hreg] at h
      obtain ⟨hJ', hs', hd', hall⟩ := ih st st' hrest hJ h
      refine ⟨hJ', hs', hd', ?_⟩
      intro x hx hxreg
      rcases List.mem_cons.mp hx with rfl | hx
      · exact absurd hxreg hreg
      · exact hall x hx hxreg

/-- Traversal rule for `collect`. `S` is the list of the names whose body is being run
(the call stack), `Pre S n` what is known when `collect n` is called under `S`, and
`I S st` the invariant. The four premises are: marking `n` pushes it on the stack; a call
along an edge meets its precondition; appending a name after the call that visited it
keeps the invariant; and a name whose direct dependencies are all in `deps` may be
popped. -/
theorem collect_rule (ws : Workspace) (Pre : List String → String → Prop)
    (I : List String → Acc → Prop)
    (R1 : ∀ S n st, Pre S n → I S st → n ∉ st.seen →
      I (n :: S) { st with seen := n :: st.seen })
    (R2 : ∀ S n x, Pre S n → edge ws n x → Pre (n :: S) x)
    (R3 : ∀ S n x st, Pre S n → edge ws n x → I (n :: S) st → x ∈ st.seen →
      I (n :: S) { st with deps := st.deps ++ [x] })
    (R4 : ∀ S n st, Pre S n → I (n :: S) st → n ∈ st.seen →
      (∀ v, edge ws n v → v ∈ st.deps) → I S st) :
    ∀ fuel S n st st', Pre S n → I S st → collect ws fuel n st = some st' →
      I S st' ∧ n ∈ st'.seen ∧ st.seen ⊆ st'.seen ∧ st.deps ⊆ st'.deps := by
  intro fuel
  induction fuel with
  | zero => intro S n st st' _ _ h; simp [collect] at h
  | succ fuel ih =>
    intro S n st st' hPre hI h
    simp only [collect] at h
    by_cases hseen : n ∈ st.seen
    · rw [if_pos hseen] at h
      simp only [Option.some.injEq] at h
      subst h
      exact ⟨hI, hseen, List.Subset.refl _, List.Subset.refl _⟩
    · rw [if_neg hseen] at h
      have hI0 := R1 S n st hPre hI hseen
      -- the state after the apiToModel step
      have step1 : ∀ st1,
          (match apiToModel n with
            | some modelName =>
              if ws.has modelName = true then
                match collect ws fuel modelName { st with seen := n :: st.seen } with
                | none => none
                | some s => some { s with deps := s.deps ++ [modelName] }
              else some { st with seen := n :: st.seen }
            | none => some { st with seen := n :: st.seen }) = some st1 →
          I (n :: S) st1 ∧ n ∈ st1.seen ∧ st.seen ⊆ st1.seen ∧ st.deps ⊆ st1.deps ∧
            ∀ v, ws.has v = true → apiToModel n = some v → v ∈ st1.deps := by
        intro st1 h1
        have base : I (n :: S) { st with seen := n :: st.seen } ∧
            n ∈ (n :: st.seen) ∧ st.seen ⊆ (n :: st.seen) ∧ st.deps ⊆ st.deps :=
          ⟨hI0, List.mem_cons_self _ _, List.subset_cons_self _ _, List.Subset.refl _⟩
        cases ham : apiToModel n with
        | none =>
          rw [ham] at h1
          simp only [Option.some.injEq] at h1
          subst h1
          exact ⟨base.1, base.2.1, base.2.2.1, base.2.2.2, by simp⟩
        | some m =>
          rw [ham] at h1
          simp only at h1
          by_cases hm : ws.has m = true
          · rw [if_pos hm] at h1
            have hedge : edge ws n m := ⟨hm, Or.inl ham⟩
            cases hc : collect ws fuel m { st with seen := n :: st.seen } with
            | none => rw [hc] at h1; simp at h1
            | some s =>
              rw [hc] at h1
              simp only [Option.some.injEq] at h1
              subst h1
              obtain ⟨hIs, hms, hss, hds⟩ :=
                ih (n :: S) m _ s (R2 S n m hPre hedge) hI0 hc
              refine ⟨R3 S n m s hPre hedge hIs hms, hss (List.mem_cons_self _ _),
                fun x hx => hss (List.mem_cons_of_mem _ hx),
                fun x hx => List.mem_append_left _ (hds hx), ?_⟩
              intro v _ hv
              have : m = v := by simpa using hv
              subst this
              simp
          · rw [if_neg hm] at h1
            simp only [Option.some.injEq] at h1
            subst h1
            refine ⟨base.1, base.2.1, base.2.2.1, base.2.2.2, ?_⟩
            intro v hv hv2
            have : m = v := by simpa using hv2
            subst this
            exact absurd hv hm
      revert h
      generalize hst1 : (match apiToModel n with
            | some modelName =>
              if ws.has modelName = true then
                match collect ws fuel modelName { st with seen := n :: st.seen } with
                | none => none
                | some s => some { s with deps := s.deps ++ [modelName] }
              else some { st with seen := n :: st.seen }
            | none => some { st with seen := n :: st.seen }) = o
      intro h
      cases o with
      | none => simp at h
      | some st1 =>
        obtain ⟨hI1, hn1, hs1, hd1, himp⟩ := step1 st1 hst1
        simp only at h
        cases hf : ws.find n with
        | none =>
          rw [hf] at h
          simp only [Option.some.injEq] at h
          subst h
          refine ⟨R4 S n st1 hPre hI1 hn1 ?_, hn1, hs1, hd1⟩
          intro v hv
          rcases hv with ⟨hreg, hv | ⟨r, hr, _⟩⟩
          · exact himp v hreg hv
          · rw [hf] at hr; simp at hr
        | some repo =>
          rw [hf] at h
          simp only at h
          have hloop := collectEach_inv ws (collect ws fuel)
            (fun a => I (n :: S) a ∧ n ∈ a.seen ∧
              ∀ v, ws.has v = true → apiToModel n = some v → v ∈ a.deps)
            repo.Dependencies
            (by
              intro d a a' hd hreg hJ hc
              have hedge : edge ws n d := ⟨hreg, Or.inr ⟨repo, hf, hd⟩⟩
              obtain ⟨hIa, hda, hsa, hdda⟩ :=
                ih (n :: S) d a a' (R2 S n d hPre hedge) hJ.1 hc
              exact ⟨⟨hIa, hsa hJ.2.1, fun v hv hv2 => hdda (hJ.2.2 v hv hv2)⟩,
                hda, hsa, hdda⟩)
            (by
              intro d a hd hreg hJ hda
              have hedge : edge ws n d := ⟨hreg, Or.inr ⟨repo, hf, hd⟩⟩
              exact ⟨R3 S n d a hPre hedge hJ.1 hda, hJ.2.1,
                fun v hv hv2 => List.mem_append_left _ (hJ.2.2 v hv hv2)⟩)
            repo.Dependencies st1 st' (List.Subset.refl _) ⟨hI1, hn1, himp⟩ h
          obtain ⟨⟨hI', hn', himp'⟩, hs', hd', hall⟩ := hloop
          refine ⟨R4 S n st' hPre hI' hn' ?_, hn', hs1.trans hs', hd1.trans hd'⟩
          intro v hv
          rcases hv with ⟨hreg, hv | ⟨r, hr, hvr⟩⟩
          · exact himp' v hreg hv
          · rw [hf] at hr
            simp only [Option.some.injEq] at hr
            subst hr
            exact hall v hvr hreg

theorem has_mem_keys (ws : Workspace) (x : String) (h : ws.has x = true) :
    x ∈ ws.Repos.map Prod.fst := by
  unfold Workspace.has Workspace.find at h
  generalize ws.Repos = l at h
  induction l with
  | nil => simp at h
  | cons a t ih =>
    obtain ⟨k, r⟩ := a
    by_cases hk : x = k
    · simp [hk]
    · have hb : (x == k) = false := by simpa using hk
      rw [List.lookup_cons, hb] at h
      simp only [List.map_cons, List.mem_cons]
      exact Or.inr (ih h)

theorem unseen_mark (ws : Workspace) (target n : String) (seen : List String)
    (hn : n = target ∨ ws.has n = true) (hns : n ∉ seen) :
    unseen ws target (n :: seen) < unseen ws target seen := by
  unfold unseen
  apply Finset.card_lt_card
  have hnU : n ∈ insert target (ws.Repos.map Prod.fst).toFinset := by
    rcases hn with rfl | hn
    · exact Finset.mem_insert_self _ _
    · exact Finset.mem_insert_of_mem (List.mem_toFinset.mpr (has_mem_keys ws n hn))
  rw [Finset.ssubset_iff_of_subset]
  · refine ⟨n, ?_, ?_⟩
    · simp only [Finset.mem_sdiff, List.mem_toFinset]
      exact ⟨hnU, hns⟩
    · simp
  · intro x hx
    simp only [Finset.mem_sdiff, List.mem_toFinset, List.mem_cons, not_or] at hx ⊢
    exact ⟨hx.1, hx.2.2⟩

theorem unseen_mono (ws : Workspace) (target : String) (s1 s2 : List String)
    (h : s1 ⊆ s2) : unseen ws target s2 ≤ unseen ws target s1 := by
  unfold unseen
  apply Finset.card_le_card
  intro x hx
  simp only [Finset.mem_sdiff, List.mem_toFinset] at hx ⊢
  exact ⟨hx.1, fun hx1 => hx.2 (h hx1)⟩

theorem unseen_nil_lt (ws : Workspace) (target : String) :
    unseen ws target [] < depthBound ws := by
  unfold unseen depthBound
  have h1 : (insert target (ws.Repos.map Prod.fst).toFinset).card ≤
      (ws.Repos.map Prod.fst).toFinset.card + 1 := Finset.card_insert_le _ _
  have h2 : (ws.Repos.map Prod.fst).toFinset.card ≤ (ws.Repos.map Prod.fst).length :=
    List.toFinset_card_le _
  simp only [List.length_map] at h2
  simp only [List.toFinset_nil, Finset.sdiff_empty]
  omega

/-- The loop over the explicit dependencies returns as soon as every recursive call
does. -/
theorem collectEach_total (ws : Workspace) (self : String → Acc → Option Acc)
    (K : Acc → Prop)
    (hself : ∀ d st, ws.has d = true → K st → ∃ st', self d st = some st' ∧ K st')
    (happ : ∀ st d, K st → K { st with deps := st.deps ++ [d] }) :
    ∀ ds st, K st → ∃ st', collectEach ws self ds st = some st' ∧ K st' := by
  intro ds
  induction ds with
  | nil => intro st hK; exact ⟨st, rfl, hK⟩
  | cons d rest ih =>
    intro st hK
    simp only [collectEach]
    by_cases hreg : ws.has d = true
    · rw [if_pos hreg]
      obtain ⟨st1, hc, hK1⟩ := hself d st hreg hK
      rw [hc]
      simp only
      by_cases hcon : contains st1.deps d = true
      · rw [if_pos hcon]; exact ih st1 hK1
      · rw [if_neg hcon]; exact ih _ (happ st1 d hK1)
    · rw [if_neg hreg]; exact ih st hK

/-- Enough fuel: a call of `collect` on the target or a registered name returns whenever
the bound exceeds the number of names that can still be marked. -/
theorem collect_total (ws : Workspace) (target : String) :
    ∀ fuel n st, (n = target ∨ ws.has n = true) → unseen ws target st.seen < fuel →
      ∃ st', collect ws fuel n st = some st' ∧ st.seen ⊆ st'.seen := by
  intro fuel
  induction fuel with
  | zero => intro n st _ h; omega
  | succ fuel ih =>
    intro n st hn hlt
    simp only [collect]
    by_cases hseen : n ∈ st.seen
    · rw [if_pos hseen]; exact ⟨st, rfl, List.Subset.refl _⟩
    · rw [if_neg hseen]
      have hmark := unseen_mark ws target n st.seen hn hseen
      have hcall : ∀ d a, ws.has d = true → (n :: st.seen) ⊆ a.seen →
          ∃ a', collect ws fuel d a = some a' ∧ (n :: st.seen) ⊆ a'.seen := by
        intro d a hd ha
        have := unseen_mono ws target _ _ ha
        obtain ⟨a', hc, hs⟩ := ih d a (Or.inr hd) (by omega)
        exact ⟨a', hc, ha.trans hs⟩
      have step1 : ∃ st1,
          (match apiToModel n with
            | some modelName =>
              if ws.has modelName = true then
                match collect ws fuel modelName { st with seen := n :: st.seen } with
                | none => none
                | some s => some { s with deps := s.deps ++ [modelName] }
              else some { st with seen := n :: st.seen }
            | none => some { st with seen := n :: st.seen }) = some st1 ∧
          (n :: st.seen) ⊆ st1.seen := by
        cases ham : apiToModel n with
        | none => exact ⟨_, rfl, List.Subset.refl _⟩
        | some m =>
          simp only
          by_cases hm : ws.has m = true
          · rw [if_pos hm]
            obtain ⟨a', hc, hs⟩ := hcall m { st with seen := n :: st.seen } hm
              (List.Subset.refl _)
            rw [hc]
            exact ⟨_, rfl, hs⟩
          · rw [if_neg hm]; exact ⟨_, rfl, List.Subset.refl _⟩
      obtain ⟨st1, h1, hs1⟩ := step1
      rw [h1]
      simp only
      cases hf : ws.find n with
      | none =>
        exact ⟨st1, rfl, fun x hx => hs1 (List.mem_cons_of_mem _ hx)⟩
      | some repo =>
        simp only
        obtain ⟨st', hc, hs⟩ := collectEach_total ws (collect ws fuel)
          (fun a => (n :: st.seen) ⊆ a.seen) hcall (fun a d ha => ha) repo.Dependencies st1 hs1
        exact ⟨st', hc, fun x hx => hs (List.mem_cons_of_mem _ hx)⟩

/-- More fuel does not change a result. -/
theorem collectEach_mono (ws : Workspace) (f g : String → Acc → Option Acc)
    (hfg : ∀ d st st', f d st = some st' → g d st = some st') :
    ∀ ds st st', collectEach ws f ds st = some st' → collectEach ws g ds st = some st' := by
  intro ds
  induction ds with
  | nil => intro st st' h; exact h
  | cons d rest ih =>
    intro st st' h
    simp only [collectEach] at h ⊢
    by_cases hreg : ws.has d = true
    · rw [if_pos hreg] at h ⊢
      cases hc : f d st with
      | none => rw [hc] at h; simp at h
      | some st1 =>
        rw [hc] at h
        rw [hfg d st st1 hc]
        simp only at h ⊢
        by_cases hcon : contains st1.deps d = true
        · rw [if_pos hcon] at h ⊢; exact ih _ _ h
        · rw [if_neg hcon] at h ⊢; exact ih _ _ h
    · rw [if_neg hreg] at h ⊢; exact ih _ _ h

theorem collect_succ (ws : Workspace) :
    ∀ fuel n st st', collect ws fuel n st = some st' →
      collect ws (fuel + 1) n st = some st' := by
  intro fuel
  induction fuel with
  | zero => intro n st st' h; simp [collect] at h
  | succ fuel ih =>
    intro n st st' h
    rw [collect] at h ⊢
    by_cases hseen : n ∈ st.seen
    · rw [if_pos hseen] at h ⊢; exact h
    · rw [if_neg hseen] at h ⊢
      simp only at h ⊢
      cases ham : apiToModel n with
      | none =>
        rw [ham] at h
        simp only at h ⊢
        cases hf : ws.find n with
        | none => rw [hf] at h; exact h
        | some repo =>
          rw [hf] at h
          exact collectEach_mono ws _ _ ih _ _ _ h
      | some m =>
        rw [ham] at h
        simp only at h ⊢
        by_cases hm : ws.has m = true
        · rw [if_pos hm] at h ⊢
          cases hc : collect ws fuel m { st with seen := n :: st.seen } with
          | none => rw [hc] at h; simp at h
          | some s =>
            rw [hc] at h
            rw [ih _ _ _ hc]
            simp only at h ⊢
            cases hf : ws.find n with
            | none => rw [hf] at h; exact h
            | some repo =>
              rw [hf] at h
              exact collectEach_mono ws _ _ ih _ _ _ h
        · rw [if_neg hm] at h ⊢
          simp only at h ⊢
          cases hf : ws.find n with
          | none => rw [hf] at h; exact h
          | some repo =>
            rw [hf] at h
            exact collectEach_mono ws _ _ ih _ _ _ h

theorem collect_fuel_mono (ws : Workspace) (n : String) (st st' : Acc) (f g : Nat)
    (hfg : f ≤ g) (h : collect ws f n st = some st') : collect ws g n st = some st' := by
  induction g with
  | zero =>
    have : f = 0 := by omega
    subst this; exact h
  | succ g ih =>
    by_cases hle : f ≤ g
    · exact collect_succ ws g n st st' (ih hle)
    · have : f = g + 1 := by omega
      subst this; exact h

theorem collect_nodup (ws : Workspace) (fuel : Nat) (n : String) (st st' : Acc)
    (h : collect ws fuel n st = some st') (hnd : st.seen.Nodup) : st'.seen.Nodup :=
  (collect_rule ws (fun _ _ => True) (fun _ a => a.seen.Nodup)
    (fun _ _ _ _ hI hn => List.nodup_cons.mpr ⟨hn, hI⟩)
    (fun _ _ _ _ _ => trivial)
    (fun _ _ _ _ _ _ hI _ => hI)
    (fun _ _ _ _ hI _ _ => hI)
    fuel [] n st st' trivial hnd h).1

/-- Everything `collect` appends is registered and reachable from the target. -/
theorem collect_sound (ws : Workspace) (t : String) (fuel : Nat) (n : String)
    (st st' : Acc) (h : collect ws fuel n st = some st')
    (hn : Relation.ReflTransGen (edge ws) t n)
    (hst : ∀ x ∈ st.deps, ws.has x = true ∧ Relation.TransGen (edge ws) t x) :
    ∀ x ∈ st'.deps, ws.has x = true ∧ Relation.TransGen (edge ws) t x :=
  (collect_rule ws (fun _ m => Relation.ReflTransGen (edge ws) t m)
    (fun _ a => ∀ x ∈ a.deps, ws.has x = true ∧ Relation.TransGen (edge ws) t x)
    (fun _ _ _ _ hI _ => hI)
    (fun _ _ _ hP he => hP.tail he)
    (fun _ _ x a hP he hI _ y hy => by
      rcases List.mem_append.mp hy with hy | hy
      · exact hI y hy
      · have : y = x := by simpa using hy
        subst this
        exact ⟨he.1, Relation.TransGen.tail' hP he⟩)
    (fun _ _ _ _ hI _ _ => hI)
    fuel [] n st st' hn hst h).1

theorem collect_closed (ws : Workspace) (fuel : Nat) (S : List String) (n : String)
    (st st' : Acc) (h : collect ws fuel n st = some st') (hst : Closed ws S st) :
    Closed ws S st' ∧ n ∈ st'.seen := by
  have := collect_rule ws (fun _ _ => True) (fun T a => Closed ws T a)
    (fun T m a _ hI _ => by
      refine ⟨fun x hx => List.mem_cons_of_mem _ (hI.1 x hx), ?_⟩
      intro u hu huT v hv
      rcases List.mem_cons.mp hu with rfl | hu
      · exact absurd (List.mem_cons_self _ _) huT
      · exact hI.2 u hu (fun hc => huT (List.mem_cons_of_mem _ hc)) v hv)
    (fun _ _ _ _ _ => trivial)
    (fun T m x a _ _ hI hx => by
      refine ⟨?_, fun u hu huT v hv => List.mem_append_left _ (hI.2 u hu huT v hv)⟩
      intro y hy
      rcases List.mem_append.mp hy with hy | hy
      · exact hI.1 y hy
      · have : y = x := by simpa using hy
        subst this
        exact hx)
    (fun T m a _ hI hm hall => by
      refine ⟨hI.1, ?_⟩
      intro u hu huT v hv
      by_cases hum : u = m
      · subst hum; exact hall v hv
      · exact hI.2 u hu (fun hc => by
          rcases List.mem_cons.mp hc with hc | hc
          · exact hum hc
          · exact huT hc) v hv)
    fuel S n st st' trivial hst h
  exact ⟨this.1, this.2.1⟩

/-- Only the target and registered names are ever marked. -/
theorem collect_seen_names (ws : Workspace) (target : String) (fuel : Nat) (n : String)
    (st st' : Acc) (h : collect ws fuel n st = some st')
    (hn : n = target ∨ ws.has n = true)
    (hst : ∀ x ∈ st.seen, x = target ∨ ws.has x = true) :
    ∀ x ∈ st'.seen, x = target ∨ ws.has x = true :=
  (collect_rule ws (fun _ m => m = target ∨ ws.has m = true)
    (fun _ a => ∀ x ∈ a.seen, x = target ∨ ws.has x = true)
    (fun _ m _ hP hI _ x hx => by
      rcases List.mem_cons.mp hx with rfl | hx
      · exact hP
      · exact hI x hx)
    (fun _ _ _ _ he => Or.inr he.1)
    (fun _ _ _ _ _ _ hI _ => hI)
    (fun _ _ _ _ hI _ _ => hI)
    fuel [] n st st' hn hst h).1

theorem ordered_append (ws : Workspace) (l : List String) (x : String)
    (hl : Ordered ws l) (hx : ∀ v, edge ws x v → v ∈ l) : Ordered ws (l ++ [x]) := by
  intro u v he hu
  by_cases hul : u ∈ l
  · obtain ⟨hv, hlt⟩ := hl u v he hul
    refine ⟨List.mem_append_left _ hv, ?_⟩
    rw [List.indexOf_append_of_mem hv, List.indexOf_append_of_mem hul]
    exact hlt
  · have hux : u = x := by
      rcases List.mem_append.mp hu with h | h
      · exact absurd h hul
      · simpa using h
    subst hux
    have hv := hx v he
    refine ⟨List.mem_append_left _ hv, ?_⟩
    rw [List.indexOf_append_of_mem hv, List.indexOf_append_of_not_mem hul]
    have := List.indexOf_lt_length.mpr hv
    omega

/-- On an acyclic graph the traversal keeps `deps` ordered. -/
theorem collect_ordered (ws : Workspace) (hac : Acyclic ws) (fuel : Nat) (n : String)
    (st st' : Acc) (h : collect ws fuel n st = some st')
    (hst : Closed ws [] st ∧ Ordered ws st.deps) :
    Closed ws [] st' ∧ Ordered ws st'.deps :=
  (collect_rule ws (fun T m => ∀ s ∈ T, Relation.TransGen (edge ws) s m)
    (fun T a => Closed ws T a ∧ Ordered ws a.deps)
    (fun T m a _ hI _ => by
      refine ⟨⟨fun x hx => List.mem_cons_of_mem _ (hI.1.1 x hx), ?_⟩, hI.2⟩
      intro u hu huT v hv
      rcases List.mem_cons.mp hu with rfl | hu
      · exact absurd (List.mem_cons_self _ _) huT
      · exact hI.1.2 u hu (fun hc => huT (List.mem_cons_of_mem _ hc)) v hv)
    (fun T m x hP he s hs => by
      rcases List.mem_cons.mp hs with rfl | hs
      · exact Relation.TransGen.single he
      · exact Relation.TransGen.tail (hP s hs) he)
    (fun T m x a hP he hI hx => by
      have hxT : x ∉ m :: T := by
        intro hc
        rcases List.mem_cons.mp hc with rfl | hc
        · exact hac _ (Relation.TransGen.single he)
        · exact hac _ (Relation.TransGen.tail (hP x hc) he)
      refine ⟨⟨?_, fun u hu huT v hv => List.mem_append_left _ (hI.1.2 u hu huT v hv)⟩,
        ordered_append ws a.deps x hI.2 (fun v hv => hI.1.2 x hx hxT v hv)⟩
      intro y hy
      rcases List.mem_append.mp hy with hy | hy
      · exact hI.1.1 y hy
      · have : y = x := by simpa using hy
        subst this
        exact hx)
    (fun T m a _ hI hm hall => by
      refine ⟨⟨hI.1.1, ?_⟩, hI.2⟩
      intro u hu huT v hv
      by_cases hum : u = m
      · subst hum; exact hall v hv
      · exact hI.1.2 u hu (fun hc => by
          rcases List.mem_cons.mp hc with hc | hc
          · exact hum hc
          · exact huT hc) v hv)
    fuel [] n st st' (by simp) hst h).1

/-- Filtering keeps the relative order of the first occurrences of two kept names. -/
theorem indexOf_filter_lt (p : String → Bool) (u v : String) (hu : p u = true)
    (hv : p v = true) :
    ∀ l : List String, List.indexOf v l < List.indexOf u l →
      List.indexOf v (l.filter p) < List.indexOf u (l.filter p) := by
  intro l
  induction l with
  | nil => intro h; simp at h
  | cons a t ih =>
    intro h
    by_cases hav : a = v
    · subst hav
      have hau : a ≠ u := by
        intro e
        subst e
        simp at h
      rw [List.filter_cons_of_pos hv, List.indexOf_cons_self, List.indexOf_cons_ne _ hau]
      exact Nat.succ_pos _
    · have hau : a ≠ u := by
        intro e
        subst e
        rw [List.indexOf_cons_self] at h
        omega
      rw [List.indexOf_cons_ne _ hav, List.indexOf_cons_ne _ hau] at h
      have ht := ih (by omega)
      by_cases hpa : p a = true
      · rw [List.filter_cons_of_pos hpa, List.indexOf_cons_ne _ hav,
          List.indexOf_cons_ne _ hau]
        omega
      · rw [List.filter_cons_of_neg hpa]
        exact ht

/-- The run of `collect` that `getDependencies` starts always returns. -/
theorem collect_top (ws : Workspace) (target : String) :
    ∃ st, collect ws (depthBound ws) target { seen := [], deps := [] } = some st :=
  let ⟨st, h, _⟩ := collect_total ws target (depthBound ws) target
    { seen := [], deps := [] } (Or.inl rfl) (unseen_nil_lt ws target)
  ⟨st, h⟩

theorem getDependencies_eq (ws : Workspace) (target : String) (st : Acc)
    (h : collect ws (depthBound ws) target { seen := [], deps := [] } = some st) :
    getDependencies ws target = st.deps.filter (fun d => d != target) := by
  unfold getDependencies
  rw [h]

theorem closed_reach (ws : Workspace) (st : Acc) (hc : Closed ws [] st) (t x : String)
    (ht : t ∈ st.seen) (hr : Relation.TransGen (edge ws) t x) : x ∈ st.deps := by
  induction hr with
  | single he => exact hc.2 t ht (by simp) _ he
  | tail _ he ih => exact hc.2 _ (hc.1 _ ih) (by simp) _ he

theorem getDependencies_registered (ws : Workspace) (target x : String)
    (hx : x ∈ getDependencies ws target) : ws.has x = true := by
  obtain ⟨st, h⟩ := collect_top ws target
  rw [getDependencies_eq ws target st h] at hx
  exact (collect_sound ws target _ target _ st h Relation.ReflTransGen.refl (by simp) x
    (List.mem_filter.mp hx).1).1

/-- A graph whose edges all go down along a rank has no cycle. -/
theorem acyclic_of_rank (ws : Workspace) (rank : String → Nat)
    (h : ∀ u v, edge ws u v → rank v < rank u) : Acyclic ws := by
  have key : ∀ a b, Relation.TransGen (edge ws) a b → rank b < rank a := by
    intro a b hab
    induction hab with
    | single he => exact h _ _ he
    | tail _ he ih => exact lt_trans (h _ _ he) ih
  intro n hn
  exact lt_irrefl _ (key n n hn)

theorem wsDup_acyclic : Acyclic wsDup := by
  apply acyclic_of_rank wsDup
    (fun s => if s = "T" then 2 else if s = "AppAPI" then 1 else 0)
  rintro u v ⟨hv, he⟩
  have hvk := has_mem_keys wsDup v hv
  simp only [wsDup, List.map_cons, List.map_nil, List.mem_cons, List.mem_singleton,
    List.not_mem_nil, or_false] at hvk
  rcases he with he | ⟨r, hr, hvr⟩
  · unfold apiToModel at he
    split at he
    · simp only [Option.some.injEq] at he
      subst he
      decide
    · simp only [Option.some.injEq] at he
      subst he
      revert hvk
      decide
    · simp at he
  · have hu : wsDup.has u = true := by simp [Workspace.has, hr]
    have huk := has_mem_keys wsDup u hu
    simp only [wsDup, List.map_cons, List.map_nil, List.mem_cons, List.mem_singleton,
      List.not_mem_nil, or_false] at huk
    rcases huk with rfl | rfl | rfl
    · have : r = { Dependencies := ["AppModel", "AppAPI"] } := by
        have h2 : wsDup.find "T" = some { Dependencies := ["AppModel", "AppAPI"] } := by
          decide
        rw [h2] at hr
        exact (Option.some.inj hr).symm
      subst this
      simp only [List.mem_cons, List.mem_singleton, List.not_mem_nil, or_false] at hvr
      rcases hvr with rfl | rfl <;> decide
    · have h2 : wsDup.find "AppModel" = some {} := by decide
      rw [h2] at hr
      have := (Option.some.inj hr).symm
      subst this
      simp at hvr
    · have h2 : wsDup.find "AppAPI" = some {} := by decide
      rw [h2] at hr
      have := (Option.some.inj hr).symm
      subst this
      simp at hvr

/-- C1 (the code departs from it): on the registry `wsDup`, where `T` lists `AppModel`
and then `AppAPI`, `getDependencies` returns `AppModel` twice: the `apiToModel` branch
of `collect` appends the producer without the `contains` test of the explicit branch. -/
theorem getDependencies_duplicate :
    getDependencies wsDup "T" = ["AppModel", "AppModel", "AppAPI"] ∧
      ¬ (getDependencies wsDup "T").Nodup := by
  decide

/-- C2: on an acyclic dependency graph, when `u` depends directly on `v` and both are in
`getDependencies ws target`, the first occurrence of `v` comes before the first
occurrence of `u`. -/
theorem getDependencies_order (ws : Workspace) (target u v : String)
    (hac : Acyclic ws) (he : edge ws u v)
    (hu : u ∈ getDependencies ws target) (hv : v ∈ getDependencies ws target) :
    List.indexOf v (getDependencies ws target) <
      List.indexOf u (getDependencies ws target) := by
  obtain ⟨st, h⟩ := collect_top ws target
  rw [getDependencies_eq ws target st h] at hu hv ⊢
  have hord := (collect_ordered ws hac _ target _ st h
    ⟨⟨by simp, by simp⟩, fun _ _ _ hx => by simp at hx⟩).2
  have hu' := List.mem_filter.mp hu
  have hv' := List.mem_filter.mp hv
  exact indexOf_filter_lt _ u v hu'.2 hv'.2 st.deps (hord u v he hu'.1).2

/-- C2 at a concrete registry: in `wsDup`, `AppAPI` depends on `AppModel`, and `AppModel`
comes first in the list resolved for `T`. -/
theorem getDependencies_order_witness :
    Acyclic wsDup ∧ edge wsDup "AppAPI" "AppModel" ∧
      List.indexOf "AppModel" (getDependencies wsDup "T") <
        List.indexOf "AppAPI" (getDependencies wsDup "T") :=
  ⟨wsDup_acyclic, ⟨by decide, Or.inl rfl⟩,
    getDependencies_order wsDup "T" "AppAPI" "AppModel" wsDup_acyclic
      ⟨by decide, Or.inl rfl⟩ (by decide) (by decide)⟩

/-- C3: a name is in `getDependencies ws target` exactly when it differs from the target,
is a key of `ws.Repos`, and is reached from the target by one or more dependency edges;
in particular the target and unregistered names never occur. -/
theorem getDependencies_mem (ws : Workspace) (target x : String) :
    (x ∈ getDependencies ws target ↔
      (x ≠ target ∧ ws.has x = true ∧ Relation.TransGen (edge ws) target x)) ∧
    target ∉ getDependencies ws target ∧
    (ws.has x = false → x ∉ getDependencies ws target) := by
  obtain ⟨st, h⟩ := collect_top ws target
  rw [getDependencies_eq ws target st h]
  have hsound := collect_sound ws target _ target _ st h Relation.ReflTransGen.refl
    (by simp)
  have hclosed := collect_closed ws _ [] target _ st h ⟨by simp, by simp⟩
  simp only [List.mem_filter, bne_iff_ne, ne_eq]
  refine ⟨⟨?_, ?_⟩, ?_, ?_⟩
  · rintro ⟨hx, hne⟩
    exact ⟨hne, hsound x hx⟩
  · rintro ⟨hne, _, hr⟩
    exact ⟨closed_reach ws st hclosed.1 target x hclosed.2 hr, hne⟩
  · simp
  · intro hno hx
    rw [(hsound x hx.1).1] at hno
    exact Bool.noConfusion hno

/-- C4: `collect` terminates. From any state, a call on the target or a registered name
returns once the depth bound exceeds the number of names that can still be marked, and
never marks a name twice; marking an unmarked name lowers that number; and the run that
`getDependencies` starts returns the same state for every bound from `depthBound ws`
on. -/
theorem collect_terminates (ws : Workspace) (target : String) :
    (∀ fuel n st, (n = target ∨ ws.has n = true) → st.seen.Nodup →
        unseen ws target st.seen < fuel →
        ∃ st', collect ws fuel n st = some st' ∧ st'.seen.Nodup ∧
          unseen ws target st'.seen ≤ unseen ws target st.seen) ∧
    (∀ n seen, (n = target ∨ ws.has n = true) → n ∉ seen →
        unseen ws target (n :: seen) < unseen ws target seen) ∧
    (∃ st, st.seen.Nodup ∧ st.seen.length ≤ ws.Repos.length + 1 ∧
        getDependencies ws target = st.deps.filter (fun d => d != target) ∧
        ∀ fuel, depthBound ws ≤ fuel →
          collect ws fuel target { seen := [], deps := [] } = some st) := by
  refine ⟨?_, fun n seen hn hns => unseen_mark ws target n seen hn hns, ?_⟩
  · intro fuel n st hn hnd hlt
    obtain ⟨st', hc, hs⟩ := collect_total ws target fuel n st hn hlt
    exact ⟨st', hc, collect_nodup ws fuel n st st' hc hnd,
      unseen_mono ws target _ _ hs⟩
  · obtain ⟨st, h⟩ := collect_top ws target
    have hnd := collect_nodup ws _ target _ st h List.nodup_nil
    refine ⟨st, hnd, ?_, getDependencies_eq ws target st h,
      fun fuel hf => collect_fuel_mono ws target _ st _ fuel hf h⟩
    have hnames := collect_seen_names ws target _ target _ st h (Or.inl rfl) (by simp)
    have hsub : st.seen.toFinset ⊆ insert target (ws.Repos.map Prod.fst).toFinset := by
      intro x hx
      rcases hnames x (List.mem_toFinset.mp hx) with rfl | hx
      · exact Finset.mem_insert_self _ _
      · exact Finset.mem_insert_of_mem (List.mem_toFinset.mpr (has_mem_keys ws x hx))
    have h1 := Finset.card_le_card hsub
    rw [List.toFinset_card_of_nodup hnd] at h1
    have h2 : (insert target (ws.Repos.map Prod.fst).toFinset).card ≤
        (ws.Repos.map Prod.fst).toFinset.card + 1 := Finset.card_insert_le _ _
    have h3 : (ws.Repos.map Prod.fst).toFinset.card ≤ (ws.Repos.map Prod.fst).length :=
      List.toFinset_card_le _
    simp only [List.length_map] at h3
    omega

/-! ## Theorems: link reconciler and build sequencer -/

theorem npmLink_log {σ : Type} (env : Env σ) (dir : String) (s s' : Sys σ)
    (r : Option String) (h : npmLink env dir s = (r, s')) :
    s'.log = s.log ++ [Event.npmLink dir r] ∧ env.link s.world dir = (r, s'.world) := by
  unfold npmLink at h
  simp only [Prod.mk.injEq] at h
  obtain ⟨h1, h2⟩ := h
  subst h2
  subst h1
  exact ⟨rfl, rfl⟩

theorem npmLinkPackage_log {σ : Type} (env : Env σ) (dir pkg : String) (s s' : Sys σ)
    (r : Option String) (h : npmLinkPackage env dir pkg s = (r, s')) :
    s'.log = s.log ++ [Event.npmLinkPackage dir pkg r] ∧
      env.linkPackage s.world dir pkg = (r, s'.world) := by
  unfold npmLinkPackage at h
  simp only [Prod.mk.injEq] at h
  obtain ⟨h1, h2⟩ := h
  subst h2
  subst h1
  exact ⟨rfl, rfl⟩

theorem runShell_log {σ : Type} (env : Env σ) (dir command : String) (s s' : Sys σ)
    (r : Option String) (h : runShell env dir command s = (r, s')) :
    s'.log = s.log ++ [Event.shell dir command r] ∧
      env.run s.world dir command = (r, s'.world) := by
  unfold runShell at h
  simp only [Prod.mk.injEq] at h
  obtain ⟨h1, h2⟩ := h
  subst h2
  subst h1
  exact ⟨rfl, rfl⟩

/-- The pre-build reconciliation only appends events, none of them a shell command. -/
theorem autoLinkDependencies_log {σ : Type} (env : Env σ) (wsPath : String)
    (ws : Workspace) (name : String) (s : Sys σ) :
    ∃ extra, (autoLinkDependencies env wsPath ws name s).2.log = s.log ++ extra ∧
      ∀ e ∈ extra, e.isShell = false := by
  unfold autoLinkDependencies
  split
  · exact ⟨[], by simp, by simp⟩
  · split
    · exact ⟨[], by simp, by simp⟩
    · simp only
      split
      · exact ⟨_, rfl, by simp [Event.isShell]⟩
      · split
        · exact ⟨_, rfl, by simp [Event.isShell]⟩
        · split
          · rename_i h
            have := (npmLink_log env _ _ _ _ h).1
            refine ⟨_, by rw [this]; simp only [say, List.append_assoc]; rfl, ?_⟩
            simp [Event.isShell]
          · rename_i h
            have h1 := (npmLink_log env _ _ _ _ h).1
            split
            · rename_i h'
              have h2 := (npmLinkPackage_log env _ _ _ _ _ h').1
              refine ⟨_, by rw [h2, h1]; simp only [say, List.append_assoc]; rfl, ?_⟩
              simp [Event.isShell]
            · rename_i h'
              have h2 := (npmLinkPackage_log env _ _ _ _ _ h').1
              refine ⟨_, (by
                simp only [say]; rw [h2, h1]
                simp only [say, List.append_assoc]; rfl), ?_⟩
              simp [Event.isShell]

/-- The post-build propagation only appends events, none of them a shell command. -/
theorem autoLinkToConsumers_log {σ : Type} (env : Env σ) (wsPath : String)
    (ws : Workspace) (name : String) (s : Sys σ) :
    ∃ extra, (autoLinkToConsumers env wsPath ws name s).2.log = s.log ++ extra ∧
      ∀ e ∈ extra, e.isShell = false := by
  unfold autoLinkToConsumers
  split
  · exact ⟨[], by simp, by simp⟩
  · split
    · exact ⟨[], by simp, by simp⟩
    · simp only
      split
      · exact ⟨[], by simp, by simp⟩
      · split
        · exact ⟨[], by simp, by simp⟩
        · split
          · exact ⟨[], by simp, by simp⟩
          · split
            · rename_i h
              have := (npmLink_log env _ _ _ _ h).1
              refine ⟨_, by rw [this]; simp only [say, List.append_assoc]; rfl, ?_⟩
              simp [Event.isShell]
            · rename_i h
              have h1 := (npmLink_log env _ _ _ _ h).1
              split
              · rename_i h'
                have h2 := (npmLinkPackage_log env _ _ _ _ _ h').1
                refine ⟨_, by rw [h2, h1]; simp only [say, List.append_assoc]; rfl, ?_⟩
                simp [Event.isShell]
              · rename_i h'
                have h2 := (npmLinkPackage_log env _ _ _ _ _ h').1
                refine ⟨_, (by
                  simp only [say]; rw [h2, h1]
                  simp only [say, List.append_assoc]; rfl), ?_⟩
                simp [Event.isShell]

theorem preBuild_log {σ : Type} (env : Env σ) (bp : Bool) (wsPath : String)
    (ws : Workspace) (name : String) (s : Sys σ) :
    ∃ extra, (preBuild env bp wsPath ws name s).log = s.log ++ extra ∧
      ∀ e ∈ extra, e.isShell = false := by
  unfold preBuild
  simp only
  split
  · obtain ⟨extra, h, hns⟩ := autoLinkDependencies_log env wsPath ws name
      (say ("=== Building " ++ name ++ " ===\n") s)
    split
    · rename_i heq
      rw [heq] at h
      simp only [say, List.append_assoc] at h ⊢
      refine ⟨_, by rw [h, List.append_assoc], ?_⟩
      intro e he
      simp only [List.mem_append, List.mem_cons, List.mem_singleton, List.not_mem_nil,
        or_false] at he
      rcases he with (rfl | he) | rfl
      · rfl
      · exact hns e he
      · rfl
    · rename_i heq
      rw [heq] at h
      simp only [say, List.append_assoc] at h
      refine ⟨_, h, ?_⟩
      intro e he
      simp only [List.mem_cons, List.singleton_append] at he
      rcases he with rfl | he
      · rfl
      · exact hns e he
  · exact ⟨_, rfl, by simp [Event.isShell]⟩

theorem postBuild_log {σ : Type} (env : Env σ) (bp : Bool) (wsPath : String)
    (ws : Workspace) (name : String) (s : Sys σ) :
    ∃ extra, (postBuild env bp wsPath ws name s).log = s.log ++ extra ∧
      ∀ e ∈ extra, e.isShell = false := by
  unfold postBuild
  simp only
  split
  · obtain ⟨extra, h, hns⟩ := autoLinkToConsumers_log env wsPath ws name s
    split
    · rename_i heq
      rw [heq] at h
      simp only [say, List.append_assoc] at h ⊢
      refine ⟨_, by rw [h, List.append_assoc], ?_⟩
      intro e he
      simp only [List.mem_append, List.mem_cons, List.mem_singleton, List.not_mem_nil,
        or_false] at he
      rcases he with he | rfl | rfl
      · exact hns e he
      · rfl
      · rfl
    · rename_i heq
      rw [heq] at h
      simp only [say] at h ⊢
      refine ⟨_, by rw [h, List.append_assoc], ?_⟩
      intro e he
      simp only [List.mem_append, List.mem_singleton] at he
      rcases he with he | rfl
      · exact hns e he
      · rfl
  · exact ⟨_, rfl, by simp [Event.isShell]⟩

/-- C5: when the producer that `apiToModel` gives for `name` is registered and has no
local build artifact, `autoLinkDependencies` returns `nil`, leaves the world as it was,
and its only event is the notice `Using published ... (local not built)`: it calls
neither `npm.Link` nor `npm.LinkPackage`. -/
theorem autoLinkDependencies_unbuilt {σ : Type} (env : Env σ) (wsPath : String)
    (ws : Workspace) (name modelName : String) (modelRepo : RepoDef) (s : Sys σ)
    (hapi : apiToModel name = some modelName)
    (hreg : ws.find modelName = some modelRepo)
    (hnb : env.isBuilt s.world (env.join wsPath modelRepo.Path) = false) :
    (autoLinkDependencies env wsPath ws name s).1 = none ∧
    (autoLinkDependencies env wsPath ws name s).2.world = s.world ∧
    (autoLinkDependencies env wsPath ws name s).2.log = s.log ++
      [Event.print ("Using published " ++ ((modelToAPI modelName).getD {}).pkg ++
        " (local not built)\n")] := by
  unfold autoLinkDependencies
  rw [hapi]
  simp only [hreg, hnb, say]
  exact ⟨rfl, rfl, rfl⟩

/-- C5 at a concrete input: `AppAPI` with `AppModel` registered and not built. -/
theorem autoLinkDependencies_unbuilt_witness :
    (autoLinkDependencies simEnv "/ws" wsMA "AppAPI" { world := {}, log := [] }).1 = none ∧
    (autoLinkDependencies simEnv "/ws" wsMA "AppAPI" { world := {}, log := [] }).2.world
      = {} ∧
    (autoLinkDependencies simEnv "/ws" wsMA "AppAPI" { world := {}, log := [] }).2.log =
      [Event.print "Using published @spark-rewards/sra-sdk (local not built)\n"] :=
  autoLinkDependencies_unbuilt simEnv "/ws" wsMA "AppAPI" "AppModel" { Path := "AppModel" }
    { world := {}, log := [] } rfl rfl rfl

/-- C6 as stated fails after a first call that returned an error, in both of its parts.
With `AppModel` built and `AppAPI` not linked: where `npm link` fails, the second call,
run on the state the first one left, calls `npm.Link` again; and where `npm link` fails
once and then succeeds, the first call returns the error and leaves `AppAPI` not linked,
while the second call calls `npm.Link` and `npm.LinkPackage` and leaves `AppAPI` linked,
so the link state after the second call is not the one after the first. -/
theorem autoLinkDependencies_retries :
    ((autoLinkDependencies simEnv "/ws" wsMA "AppAPI"
      (autoLinkDependencies simEnv "/ws" wsMA "AppAPI"
        { world := { built := ["/ws/AppModel"], linkFails := true }, log := [] }).2).2.log =
    (autoLinkDependencies simEnv "/ws" wsMA "AppAPI"
        { world := { built := ["/ws/AppModel"], linkFails := true }, log := [] }).2.log ++
      [Event.print "Linking local AppModel -> AppAPI...\n",
        Event.npmLink "/ws/AppModel/build" (some "exit status 1")]) ∧
    ((autoLinkDependencies simEnv "/ws" wsMA "AppAPI"
        { world := { built := ["/ws/AppModel"], linkFailsOnce := true }, log := [] }).1 =
      some "npm link in AppModel failed: exit status 1" ∧
    simEnv.isLinked
      (autoLinkDependencies simEnv "/ws" wsMA "AppAPI"
        { world := { built := ["/ws/AppModel"], linkFailsOnce := true }, log := [] }).2.world
      "/ws/AppAPI" "@spark-rewards/sra-sdk" = false ∧
    simEnv.isLinked
      (autoLinkDependencies simEnv "/ws" wsMA "AppAPI"
        (autoLinkDependencies simEnv "/ws" wsMA "AppAPI"
          { world := { built := ["/ws/AppModel"], linkFailsOnce := true },
            log := [] }).2).2.world
      "/ws/AppAPI" "@spark-rewards/sra-sdk" = true ∧
    (autoLinkDependencies simEnv "/ws" wsMA "AppAPI"
      (autoLinkDependencies simEnv "/ws" wsMA "AppAPI"
        { world := { built := ["/ws/AppModel"], linkFailsOnce := true }, log := [] }).2).2.log =
    (autoLinkDependencies simEnv "/ws" wsMA "AppAPI"
        { world := { built := ["/ws/AppModel"], linkFailsOnce := true }, log := [] }).2.log ++
      [Event.print "Linking local AppModel -> AppAPI...\n",
        Event.npmLink "/ws/AppModel/build" none,
        Event.npmLinkPackage "/ws/AppAPI" "@spark-rewards/sra-sdk" none,
        Event.print "Linked: AppAPI now uses local AppModel\n"]) := by
  decide

/-- C6, amended: when the first call of `autoLinkDependencies` returns `nil`, and a
successful `npm.Link` of the producer's build output followed by a successful
`npm.LinkPackage` leaves the producer built and the consumer linked, a second call on
the state the first one left returns `nil`, leaves the world, and with it the link state,
as the first call left it, and only prints: it calls neither `npm.Link` nor
`npm.LinkPackage`. -/
theorem autoLinkDependencies_idempotent {σ : Type} (env : Env σ) (wsPath : String)
    (ws : Workspace) (name : String) (s : Sys σ)
    (hcontract : ∀ w w1 w2 modelDir apiDir pkg, env.isBuilt w modelDir = true →
      env.link w (env.buildOutputDir w modelDir) = (none, w1) →
      env.linkPackage w1 apiDir pkg = (none, w2) →
      env.isBuilt w2 modelDir = true ∧ env.isLinked w2 apiDir pkg = true)
    (hok : (autoLinkDependencies env wsPath ws name s).1 = none) :
    ∃ notes,
      autoLinkDependencies env wsPath ws name (autoLinkDependencies env wsPath ws name s).2 =
        (none, { world := (autoLinkDependencies env wsPath ws name s).2.world,
                 log := (autoLinkDependencies env wsPath ws name s).2.log ++ notes }) ∧
      ∀ e ∈ notes, e.isPrint = true := by
  unfold autoLinkDependencies at hok ⊢
  cases hapi : apiToModel name with
  | none => exact ⟨[], by simp, by simp⟩
  | some modelName =>
    rw [hapi] at hok
    simp only at hok ⊢
    cases hreg : ws.find modelName with
    | none => exact ⟨[], by simp, by simp⟩
    | some modelRepo =>
      rw [hreg] at hok
      simp only at hok ⊢
      cases hb : env.isBuilt s.world (env.join wsPath modelRepo.Path) with
      | false =>
        simp only [hb, say, Bool.not_false, ↓reduceIte]
        exact ⟨_, rfl, by simp [Event.isPrint]⟩
      | true =>
        rw [hb] at hok
        simp only [Bool.not_true, Bool.false_eq_true, ↓reduceIte] at hok ⊢
        cases hl : env.isLinked s.world (env.join wsPath (ws.get name).Path)
            ((modelToAPI modelName).getD {}).pkg with
        | true =>
          simp only [hl, say, hb, ↓reduceIte, Bool.not_true, Bool.false_eq_true]
          exact ⟨_, rfl, by simp [Event.isPrint]⟩
        | false =>
          rw [hl] at hok
          simp only [Bool.false_eq_true, ↓reduceIte] at hok ⊢
          rcases hL : npmLink env
              (env.buildOutputDir (say ("Linking local " ++ modelName ++ " -> " ++ name ++
                "...\n") s).world (env.join wsPath modelRepo.Path))
              (say ("Linking local " ++ modelName ++ " -> " ++ name ++ "...\n") s)
            with ⟨_ | err, s2⟩
          · rw [hL] at hok
            simp only at hok ⊢
            rcases hP : npmLinkPackage env (env.join wsPath (ws.get name).Path)
                ((modelToAPI modelName).getD {}).pkg s2 with ⟨_ | err, s3⟩
            · have h1 := (npmLink_log env _ _ _ _ hL).2
              have h2 := (npmLinkPackage_log env _ _ _ _ _ hP).2
              obtain ⟨hb3, hl3⟩ := hcontract s.world s2.world s3.world _ _ _ hb h1 h2
              simp only [say, hb3, hl3, ↓reduceIte, Bool.not_true, Bool.false_eq_true]
              exact ⟨_, rfl, by simp [Event.isPrint]⟩
            · rw [hP] at hok
              simp at hok
          · rw [hL] at hok
            simp at hok

theorem simEnv_contract : ∀ (w w1 w2 : World) (modelDir apiDir pkg : String),
    simEnv.isBuilt w modelDir = true →
    simEnv.link w (simEnv.buildOutputDir w modelDir) = (none, w1) →
    simEnv.linkPackage w1 apiDir pkg = (none, w2) →
    simEnv.isBuilt w2 modelDir = true ∧ simEnv.isLinked w2 apiDir pkg = true := by
  intro w w1 w2 modelDir apiDir pkg hb h1 h2
  simp only [simEnv] at hb h1 h2 ⊢
  by_cases hf : w.linkFails = true
  · simp [hf] at h1
  · by_cases hf1 : w.linkFailsOnce = true
    · simp [hf, hf1] at h1
    · simp only [hf, hf1, Bool.false_eq_true, ↓reduceIte, Prod.mk.injEq, true_and] at h1
      subst h1
      simp only [Prod.mk.injEq, true_and] at h2
      subst h2
      simp only [decide_eq_true_eq] at hb ⊢
      exact ⟨hb, List.mem_cons_self _ _⟩

/-- C6, amended, at a concrete input: `AppModel` built, `AppAPI` not linked, the link
operations succeeding; the first call links and the second only prints. -/
theorem autoLinkDependencies_idempotent_witness :
    (autoLinkDependencies simEnv "/ws" wsMA "AppAPI"
      { world := { built := ["/ws/AppModel"] }, log := [] }).1 = none ∧
    ∃ notes,
      autoLinkDependencies simEnv "/ws" wsMA "AppAPI"
        (autoLinkDependencies simEnv "/ws" wsMA "AppAPI"
          { world := { built := ["/ws/AppModel"] }, log := [] }).2 =
        (none, { world := (autoLinkDependencies simEnv "/ws" wsMA "AppAPI"
                    { world := { built := ["/ws/AppModel"] }, log := [] }).2.world,
                 log := (autoLinkDependencies simEnv "/ws" wsMA "AppAPI"
                    { world := { built := ["/ws/AppModel"] }, log := [] }).2.log ++ notes }) ∧
      ∀ e ∈ notes, e.isPrint = true :=
  ⟨by decide, autoLinkDependencies_idempotent simEnv "/ws" wsMA "AppAPI"
    { world := { built := ["/ws/AppModel"] }, log := [] } simEnv_contract (by decide)⟩

theorem filter_isShell_nil (l : List Event) (h : ∀ e ∈ l, e.isShell = false) :
    l.filter Event.isShell = [] := by
  rw [List.filter_eq_nil_iff]
  intro e he
  simp [h e he]

/-- C7: for a registered repository whose directory is not missing and whose build
command, resolved after the pre-build step, is the non-empty `cmd`, `buildRepo` runs
`cmd` in the repository directory exactly once, and returns an error exactly when that
run does, whatever the link operations of the pre-build and post-build steps return. -/
theorem buildRepo_runs_command {σ : Type} (env : Env σ) (bp : Bool) (wsPath : String)
    (ws : Workspace) (name : String) (repo : RepoDef) (cmd : String) (s : Sys σ)
    (hreg : ws.find name = some repo)
    (hdir : isNotExist env s.world (env.join wsPath repo.Path) = false)
    (hcmd : getBuildCommand env (preBuild env bp wsPath ws name s).world name repo
      (env.join wsPath repo.Path) = cmd)
    (hne : cmd ≠ "") :
    ∃ extra,
      (buildRepo env bp wsPath ws name s).2.log = s.log ++ extra ∧
      extra.filter Event.isShell =
        [Event.shell (env.join wsPath repo.Path) cmd
          (env.run (preBuild env bp wsPath ws name s).world
            (env.join wsPath repo.Path) cmd).1] ∧
      ((buildRepo env bp wsPath ws name s).1 = none ↔
        (env.run (preBuild env bp wsPath ws name s).world
          (env.join wsPath repo.Path) cmd).1 = none) := by
  obtain ⟨e1, hlog1, hns1⟩ := preBuild_log env bp wsPath ws name s
  have hf1 := filter_isShell_nil e1 hns1
  unfold buildRepo
  rw [hreg]
  simp only [hdir, Bool.false_eq_true, ↓reduceIte, hcmd, hne]
  rcases hrun : runShell env (env.join wsPath repo.Path) cmd
      (say ("Running: " ++ cmd ++ "\n") (preBuild env bp wsPath ws name s))
    with ⟨_ | err, s2⟩
  · obtain ⟨hlog2, hw2⟩ := runShell_log env _ _ _ _ _ hrun
    obtain ⟨e3, hlog3, hns3⟩ := postBuild_log env bp wsPath ws name s2
    have hf3 := filter_isShell_nil e3 hns3
    simp only [say] at hw2 hlog2
    refine ⟨e1 ++ [Event.print ("Running: " ++ cmd ++ "\n"),
      Event.shell (env.join wsPath repo.Path) cmd none] ++ e3, ?_, ?_, ?_⟩
    · simp only [hlog3, hlog2, hlog1, List.append_assoc, List.singleton_append,
        List.cons_append, List.nil_append]
    · rw [hw2]
      simp [List.filter_append, hf1, hf3, List.filter_cons, Event.isShell]
    · rw [hw2]
  · obtain ⟨hlog2, hw2⟩ := runShell_log env _ _ _ _ _ hrun
    simp only [say] at hw2 hlog2
    refine ⟨e1 ++ [Event.print ("Running: " ++ cmd ++ "\n"),
      Event.shell (env.join wsPath repo.Path) cmd (some err)], ?_, ?_, ?_⟩
    · simp only [hlog2, hlog1, List.append_assoc, List.singleton_append,
        List.cons_append, List.nil_append]
    · rw [hw2]
      simp [List.filter_append, hf1, List.filter_cons, Event.isShell]
    · rw [hw2]
      simp

/-- C7 at a concrete input: `AppModel` built, `npm link` failing; `AppAPI` is still
built, once, and `buildRepo` returns `nil`. -/
theorem buildRepo_runs_command_witness :
    ∃ extra,
      (buildRepo simEnv false "/ws" wsMA "AppAPI"
        { world := { built := ["/ws/AppModel"], linkFails := true }, log := [] }).2.log
        = [] ++ extra ∧
      extra.filter Event.isShell =
        [Event.shell (simEnv.join "/ws" "AppAPI") "npm run build"
          (simEnv.run (preBuild simEnv false "/ws" wsMA "AppAPI"
            { world := { built := ["/ws/AppModel"], linkFails := true }, log := [] }).world
            (simEnv.join "/ws" "AppAPI") "npm run build").1] ∧
      ((buildRepo simEnv false "/ws" wsMA "AppAPI"
        { world := { built := ["/ws/AppModel"], linkFails := true }, log := [] }).1 = none ↔
        (simEnv.run (preBuild simEnv false "/ws" wsMA "AppAPI"
            { world := { built := ["/ws/AppModel"], linkFails := true }, log := [] }).world
          (simEnv.join "/ws" "AppAPI") "npm run build").1 = none) :=
  buildRepo_runs_command simEnv false "/ws" wsMA "AppAPI" { Path := "AppAPI" }
    "npm run build" { world := { built := ["/ws/AppModel"], linkFails := true }, log := [] }
    (by decide) (by decide) (by decide) (by decide)

theorem modelToAPI_cases (M A pkg : String)
    (h : modelToAPI M = some { api := A, pkg := pkg }) :
    (M = "AppModel" ∧ A = "AppAPI" ∧ pkg = "@spark-rewards/sra-sdk") ∨
    (M = "BusinessModel" ∧ A = "BusinessAPI" ∧ pkg = "@spark-rewards/srw-sdk") := by
  unfold modelToAPI at h
  split at h
  · simp only [Option.some.injEq, depMapping.mk.injEq] at h
    exact Or.inl ⟨rfl, h.1.symm, h.2.symm⟩
  · simp only [Option.some.injEq, depMapping.mk.injEq] at h
    exact Or.inr ⟨rfl, h.1.symm, h.2.symm⟩
  · simp at h

/-- The consumers of the mapping always have a build command. -/
theorem getBuildCommand_consumer {σ : Type} (env : Env σ) (w : σ) (M A pkg : String)
    (repo : RepoDef) (dir : String) (h : modelToAPI M = some { api := A, pkg := pkg }) :
    getBuildCommand env w A repo dir ≠ "" := by
  unfold getBuildCommand
  split
  · assumption
  · rcases modelToAPI_cases M A pkg h with ⟨_, rfl, _⟩ | ⟨_, rfl, _⟩
    · simp [knownBuildCommands]
    · simp [knownBuildCommands]

/-- C9 as stated fails: with `AppModel` built, `AppAPI` registered and not linked, but the
directory of `AppAPI` missing, `buildRepo` returns its directory error and performs no
link operation at all. -/
theorem buildRepo_missing_dir_no_link :
    simEnv.isBuilt { absent := ["/ws/AppAPI"], built := ["/ws/AppModel"] } "/ws/AppModel"
      = true ∧
    simEnv.isLinked { absent := ["/ws/AppAPI"], built := ["/ws/AppModel"] } "/ws/AppAPI"
      "@spark-rewards/sra-sdk" = false ∧
    buildRepo simEnv false "/ws" wsMA "AppAPI"
      { world := { absent := ["/ws/AppAPI"], built := ["/ws/AppModel"] }, log := [] } =
      (some "repo directory /ws/AppAPI does not exist",
        { world := { absent := ["/ws/AppAPI"], built := ["/ws/AppModel"] }, log := [] }) := by
  decide

/-- C9, amended: for a producer `M` mapped to the consumer `A` by package `pkg`, both
registered, linking enabled, the directory of `A` not missing, `M` built, `A` not linked
and both link operations succeeding, the calls that `buildRepo` makes for `A` are, in this
order, one `npm.Link` of the build output of `M`, one `npm.LinkPackage` of `pkg` in the
directory of `A`, and one run of the build command of `A`, which is not empty. -/
theorem buildRepo_links_then_builds {σ : Type} (env : Env σ) (wsPath : String)
    (ws : Workspace) (M A pkg : String) (mr ar : RepoDef) (s : Sys σ) (w1 w2 : σ)
    (hmap : modelToAPI M = some { api := A, pkg := pkg })
    (hM : ws.find M = some mr) (hA : ws.find A = some ar)
    (hdir : isNotExist env s.world (env.join wsPath ar.Path) = false)
    (hbuilt : env.isBuilt s.world (env.join wsPath mr.Path) = true)
    (hnl : env.isLinked s.world (env.join wsPath ar.Path) pkg = false)
    (hlink : env.link s.world (env.buildOutputDir s.world (env.join wsPath mr.Path))
      = (none, w1))
    (hlp : env.linkPackage w1 (env.join wsPath ar.Path) pkg = (none, w2)) :
    getBuildCommand env w2 A ar (env.join wsPath ar.Path) ≠ "" ∧
    ∃ extra,
      (buildRepo env false wsPath ws A s).2.log = s.log ++ extra ∧
      extra.filter (fun e => e.isLink || e.isShell) =
        [Event.npmLink (env.buildOutputDir s.world (env.join wsPath mr.Path)) none,
          Event.npmLinkPackage (env.join wsPath ar.Path) pkg none,
          Event.shell (env.join wsPath ar.Path)
            (getBuildCommand env w2 A ar (env.join wsPath ar.Path))
            (env.run w2 (env.join wsPath ar.Path)
              (getBuildCommand env w2 A ar (env.join wsPath ar.Path))).1] := by
  have hne := getBuildCommand_consumer env w2 M A pkg ar (env.join wsPath ar.Path) hmap
  refine ⟨hne, ?_⟩
  have hapi : apiToModel A = some M := by
    rcases modelToAPI_cases M A pkg hmap with ⟨rfl, rfl, _⟩ | ⟨rfl, rfl, _⟩ <;> rfl
  have hnone : modelToAPI A = none := by
    rcases modelToAPI_cases M A pkg hmap with ⟨_, rfl, _⟩ | ⟨_, rfl, _⟩ <;> rfl
  have hget : (ws.get A).Path = ar.Path := by simp [Workspace.get, hA]
  have hpre : preBuild env false wsPath ws A s =
      { world := w2,
        log := s.log ++ [Event.print ("=== Building " ++ A ++ " ===\n"),
          Event.print ("Linking local " ++ M ++ " -> " ++ A ++ "...\n"),
          Event.npmLink (env.buildOutputDir s.world (env.join wsPath mr.Path)) none,
          Event.npmLinkPackage (env.join wsPath ar.Path) pkg none,
          Event.print ("Linked: " ++ A ++ " now uses local " ++ M ++ "\n")] } := by
    unfold preBuild autoLinkDependencies
    simp [hapi, hM, hmap, hget, say, hbuilt, hnl, npmLink, npmLinkPackage, hlink, hlp]
  have hpost : ∀ t : Sys σ, postBuild env false wsPath ws A t =
      say ("[ok] " ++ A ++ " built successfully\n") t := by
    intro t
    unfold postBuild autoLinkToConsumers
    simp [hnone]
  unfold buildRepo
  rw [hA]
  simp only [hdir, Bool.false_eq_true, ↓reduceIte, hpre, hne, hpost]
  rcases hrun : env.run w2 (env.join wsPath ar.Path)
      (getBuildCommand env w2 A ar (env.join wsPath ar.Path)) with ⟨_ | err, w3⟩
  · simp only [runShell, say, hrun]
    refine ⟨[Event.print ("=== Building " ++ A ++ " ===\n"),
        Event.print ("Linking local " ++ M ++ " -> " ++ A ++ "...\n"),
        Event.npmLink (env.buildOutputDir s.world (env.join wsPath mr.Path)) none,
        Event.npmLinkPackage (env.join wsPath ar.Path) pkg none,
        Event.print ("Linked: " ++ A ++ " now uses local " ++ M ++ "\n"),
        Event.print ("Running: " ++
          getBuildCommand env w2 A ar (env.join wsPath ar.Path) ++ "\n"),
        Event.shell (env.join wsPath ar.Path)
          (getBuildCommand env w2 A ar (env.join wsPath ar.Path)) none,
        Event.print ("[ok] " ++ A ++ " built successfully\n")], ?_, ?_⟩
    · simp only [List.append_assoc, List.cons_append, List.nil_append]
    · simp [List.filter_cons, Event.isLink, Event.isShell]
  · simp only [runShell, say, hrun]
    refine ⟨[Event.print ("=== Building " ++ A ++ " ===\n"),
        Event.print ("Linking local " ++ M ++ " -> " ++ A ++ "...\n"),
        Event.npmLink (env.buildOutputDir s.world (env.join wsPath mr.Path)) none,
        Event.npmLinkPackage (env.join wsPath ar.Path) pkg none,
        Event.print ("Linked: " ++ A ++ " now uses local " ++ M ++ "\n"),
        Event.print ("Running: " ++
          getBuildCommand env w2 A ar (env.join wsPath ar.Path) ++ "\n"),
        Event.shell (env.join wsPath ar.Path)
          (getBuildCommand env w2 A ar (env.join wsPath ar.Path)) (some err)], ?_, ?_⟩
    · simp only [List.append_assoc, List.cons_append, List.nil_append]
    · simp [List.filter_cons, Event.isLink, Event.isShell]

/-- C9, amended, at a concrete input: `AppModel` built and `AppAPI` not linked. -/
theorem buildRepo_links_then_builds_witness :
    getBuildCommand simEnv
      { built := ["/ws/AppModel"], linked := [("/ws/AppAPI", "@spark-rewards/sra-sdk")] }
      "AppAPI" { Path := "AppAPI" } (simEnv.join "/ws" "AppAPI") ≠ "" ∧
    ∃ extra,
      (buildRepo simEnv false "/ws" wsMA "AppAPI"
        { world := { built := ["/ws/AppModel"] }, log := [] }).2.log = [] ++ extra ∧
      extra.filter (fun e => e.isLink || e.isShell) =
        [Event.npmLink (simEnv.buildOutputDir { built := ["/ws/AppModel"] }
            (simEnv.join "/ws" "AppModel")) none,
          Event.npmLinkPackage (simEnv.join "/ws" "AppAPI") "@spark-rewards/sra-sdk" none,
          Event.shell (simEnv.join "/ws" "AppAPI")
            (getBuildCommand simEnv
              { built := ["/ws/AppModel"],
                linked := [("/ws/AppAPI", "@spark-rewards/sra-sdk")] }
              "AppAPI" { Path := "AppAPI" } (simEnv.join "/ws" "AppAPI"))
            (simEnv.run
              { built := ["/ws/AppModel"],
                linked := [("/ws/AppAPI", "@spark-rewards/sra-sdk")] }
              (simEnv.join "/ws" "AppAPI")
              (getBuildCommand simEnv
                { built := ["/ws/AppModel"],
                  linked := [("/ws/AppAPI", "@spark-rewards/sra-sdk")] }
                "AppAPI" { Path := "AppAPI" } (simEnv.join "/ws" "AppAPI"))).1] :=
  buildRepo_links_then_builds simEnv "/ws" wsMA "AppModel" "AppAPI" "@spark-rewards/sra-sdk"
    { Path := "AppModel" } { Path := "AppAPI" }
    { world := { built := ["/ws/AppModel"] }, log := [] }
    { built := ["/ws/AppModel"] }
    { built := ["/ws/AppModel"], linked := [("/ws/AppAPI", "@spark-rewards/sra-sdk")] }
    rfl rfl rfl rfl rfl rfl rfl rfl

/-- The recursive build is the loop over the resolved dependencies, started after the
announcement, followed by the build of the target when the loop returned no error. -/
theorem buildRecursively_loop {σ : Type} (env : Env σ) (bp : Bool) (wsPath : String)
    (ws : Workspace) (target : String) (s : Sys σ) :
    buildRecursively env bp wsPath ws target s =
      match buildDeps env bp wsPath ws (getDependencies ws target)
          (announce (getDependencies ws target) s) with
      | (some err, s1) => (some err, s1)
      | (none, s1) => buildRepo env bp wsPath ws target s1 := by
  unfold buildRecursively announce
  simp only
  by_cases h : (getDependencies ws target).length > 0
  · rw [if_pos h, if_pos h]
  · rw [if_neg h, if_neg h]
    have h0 : getDependencies ws target = [] := by
      cases hd : getDependencies ws target with
      | nil => rfl
      | cons a t => rw [hd] at h; simp at h
    rw [h0]
    simp only [buildDeps]

theorem buildDeps_append {σ : Type} (env : Env σ) (bp : Bool) (wsPath : String)
    (ws : Workspace) (rest : List String) :
    ∀ (pre : List String) (s s1 : Sys σ),
      buildDeps env bp wsPath ws pre s = (none, s1) →
      buildDeps env bp wsPath ws (pre ++ rest) s = buildDeps env bp wsPath ws rest s1 := by
  intro pre
  induction pre with
  | nil =>
    intro s s1 h
    simp only [buildDeps, Prod.mk.injEq, true_and] at h
    subst h
    rfl
  | cons d pre ih =>
    intro s s1 h
    simp only [List.cons_append, buildDeps] at h ⊢
    cases hf : ws.find d with
    | none =>
      rw [hf] at h
      exact ih _ _ h
    | some repo =>
      rw [hf] at h
      simp only at h ⊢
      by_cases hdir : isNotExist env s.world (env.join wsPath repo.Path) = true
      · rw [if_pos hdir] at h ⊢
        exact ih _ _ h
      · rw [if_neg hdir] at h ⊢
        rcases hb : buildRepo env bp wsPath ws d s with ⟨_ | err, s2⟩
        · rw [hb] at h
          exact ih _ _ h
        · rw [hb] at h
          simp at h

/-- A build whose command fails returns the wrapped error in the state that run left. -/
theorem buildRepo_command_fails {σ : Type} (env : Env σ) (bp : Bool) (wsPath : String)
    (ws : Workspace) (name : String) (repo : RepoDef) (cmd e : String) (w' : σ) (s : Sys σ)
    (hreg : ws.find name = some repo)
    (hdir : isNotExist env s.world (env.join wsPath repo.Path) = false)
    (hcmd : getBuildCommand env (preBuild env bp wsPath ws name s).world name repo
      (env.join wsPath repo.Path) = cmd)
    (hne : cmd ≠ "")
    (hrun : env.run (preBuild env bp wsPath ws name s).world (env.join wsPath repo.Path) cmd
      = (some e, w')) :
    buildRepo env bp wsPath ws name s =
      (some ("build failed: " ++ e),
        { world := w',
          log := (preBuild env bp wsPath ws name s).log ++
            [Event.print ("Running: " ++ cmd ++ "\n"),
              Event.shell (env.join wsPath repo.Path) cmd (some e)] }) := by
  unfold buildRepo
  rw [hreg]
  simp only [hdir, Bool.false_eq_true, ↓reduceIte, hcmd, hne, runShell, say, hrun,
    List.append_assoc, List.singleton_append]

/-- C8: when the dependencies before `d` in the resolved order were built or skipped
without error, and `d` is registered, its directory is not missing and its build command
fails, `buildRecursively` returns an error that names `d`, in the state that the failed
command left: the last event is that command, so no later dependency is built and the
build command of the target is never run. -/
theorem buildRecursively_aborts {σ : Type} (env : Env σ) (bp : Bool) (wsPath : String)
    (ws : Workspace) (target : String) (s : Sys σ) (pre : List String) (d : String)
    (post : List String) (repo : RepoDef) (s1 : Sys σ) (cmd e : String) (w' : σ)
    (hdeps : getDependencies ws target = pre ++ d :: post)
    (hpre : buildDeps env bp wsPath ws pre (announce (getDependencies ws target) s)
      = (none, s1))
    (hreg : ws.find d = some repo)
    (hdir : isNotExist env s1.world (env.join wsPath repo.Path) = false)
    (hcmd : getBuildCommand env (preBuild env bp wsPath ws d s1).world d repo
      (env.join wsPath repo.Path) = cmd)
    (hne : cmd ≠ "")
    (hrun : env.run (preBuild env bp wsPath ws d s1).world (env.join wsPath repo.Path) cmd
      = (some e, w')) :
    buildRecursively env bp wsPath ws target s =
      (some ("dependency build failed at '" ++ d ++ "': " ++ ("build failed: " ++ e)),
        { world := w',
          log := (preBuild env bp wsPath ws d s1).log ++
            [Event.print ("Running: " ++ cmd ++ "\n"),
              Event.shell (env.join wsPath repo.Path) cmd (some e)] }) := by
  have hb := buildRepo_command_fails env bp wsPath ws d repo cmd e w' s1 hreg hdir hcmd hne
    hrun
  have hloop : buildDeps env bp wsPath ws (getDependencies ws target)
      (announce (getDependencies ws target) s) =
      (some ("dependency build failed at '" ++ d ++ "': " ++ ("build failed: " ++ e)),
        { world := w',
          log := (preBuild env bp wsPath ws d s1).log ++
            [Event.print ("Running: " ++ cmd ++ "\n"),
              Event.shell (env.join wsPath repo.Path) cmd (some e)] }) := by
    rw [hdeps] at hpre ⊢
    rw [buildDeps_append env bp wsPath ws (d :: post) pre _ s1 hpre]
    simp only [buildDeps, hreg, hdir, Bool.false_eq_true, ↓reduceIte, hb]
  rw [buildRecursively_loop, hloop]

/-- C8 at a concrete input: the build command of `AppModel` fails in the recursive build
of `AppAPI`. -/
theorem buildRecursively_aborts_witness :
    buildRecursively simEnv false "/ws" wsMA "AppAPI"
      { world := { failing := ["/ws/AppModel"] }, log := [] } =
      (some ("dependency build failed at '" ++ "AppModel" ++ "': " ++
          ("build failed: " ++ "exit status 1")),
        { world := { failing := ["/ws/AppModel"] },
          log := (preBuild simEnv false "/ws" wsMA "AppModel"
              (announce (getDependencies wsMA "AppAPI")
                { world := { failing := ["/ws/AppModel"] }, log := [] })).log ++
            [Event.print ("Running: " ++ "npm run build:all" ++ "\n"),
              Event.shell (simEnv.join "/ws" "AppModel") "npm run build:all"
                (some "exit status 1")] }) :=
  buildRecursively_aborts simEnv false "/ws" wsMA "AppAPI"
    { world := { failing := ["/ws/AppModel"] }, log := [] } [] "AppModel" []
    { Path := "AppModel" }
    (announce (getDependencies wsMA "AppAPI")
      { world := { failing := ["/ws/AppModel"] }, log := [] })
    "npm run build:all" "exit status 1" { failing := ["/ws/AppModel"] }
    (by decide) rfl (by decide) (by decide) (by decide) (by decide) (by decide)

/-- A build only appends events; when it returns an error for a registered repository
whose directory is not missing, one of them is a shell command that failed. -/
theorem buildRepo_log {σ : Type} (env : Env σ) (bp : Bool) (wsPath : String)
    (ws : Workspace) (name : String) (s : Sys σ) :
    ∃ extra, (buildRepo env bp wsPath ws name s).2.log = s.log ++ extra ∧
      ∀ repo err, ws.find name = some repo →
        isNotExist env s.world (env.join wsPath repo.Path) = false →
        (buildRepo env bp wsPath ws name s).1 = some err →
        ∃ dir c e, Event.shell dir c (some e) ∈ extra := by
  unfold buildRepo
  cases hf : ws.find name with
  | none => exact ⟨[], by simp, by simp⟩
  | some repo =>
    simp only
    by_cases hdir : isNotExist env s.world (env.join wsPath repo.Path) = true
    · rw [if_pos hdir]
      refine ⟨[], by simp, ?_⟩
      intro r err hr hd
      simp only [Option.some.injEq] at hr
      subst hr
      rw [hdir] at hd
      exact Bool.noConfusion hd
    · rw [if_neg hdir]
      obtain ⟨e1, hlog1, _⟩ := preBuild_log env bp wsPath ws name s
      split
      · refine ⟨e1 ++ [Event.print ("No build command for '" ++ name ++ "' — skipping\n")],
          ?_, ?_⟩
        · simp only [say, hlog1, List.append_assoc]
        · intro r err _ _ h
          simp at h
      · rcases hrun : runShell env (env.join wsPath repo.Path)
            (getBuildCommand env (preBuild env bp wsPath ws name s).world name repo
              (env.join wsPath repo.Path))
            (say ("Running: " ++ getBuildCommand env (preBuild env bp wsPath ws name s).world
              name repo (env.join wsPath repo.Path) ++ "\n")
              (preBuild env bp wsPath ws name s))
          with ⟨_ | err, s2⟩
        · obtain ⟨hlog2, _⟩ := runShell_log env _ _ _ _ _ hrun
          obtain ⟨e3, hlog3, _⟩ := postBuild_log env bp wsPath ws name s2
          simp only [say] at hlog2
          refine ⟨e1 ++ [Event.print ("Running: " ++
              getBuildCommand env (preBuild env bp wsPath ws name s).world name repo
                (env.join wsPath repo.Path) ++ "\n"),
            Event.shell (env.join wsPath repo.Path)
              (getBuildCommand env (preBuild env bp wsPath ws name s).world name repo
                (env.join wsPath repo.Path)) none] ++ e3, ?_, ?_⟩
          · simp only [hlog3, hlog2, hlog1, List.append_assoc, List.singleton_append,
              List.cons_append, List.nil_append]
          · intro r err _ _ h
            simp at h
        · obtain ⟨hlog2, _⟩ := runShell_log env _ _ _ _ _ hrun
          simp only [say] at hlog2
          refine ⟨e1 ++ [Event.print ("Running: " ++
              getBuildCommand env (preBuild env bp wsPath ws name s).world name repo
                (env.join wsPath repo.Path) ++ "\n"),
            Event.shell (env.join wsPath repo.Path)
              (getBuildCommand env (preBuild env bp wsPath ws name s).world name repo
                (env.join wsPath repo.Path)) (some err)], ?_, ?_⟩
          · simp only [hlog2, hlog1, List.append_assoc, List.singleton_append,
              List.cons_append, List.nil_append]
          · intro r err' _ _ _
            exact ⟨_, _, err, List.mem_append_right _
              (List.mem_cons_of_mem _ (List.mem_singleton_self _))⟩

theorem buildDeps_log {σ : Type} (env : Env σ) (bp : Bool) (wsPath : String)
    (ws : Workspace) :
    ∀ (deps : List String) (s : Sys σ),
      ∃ extra, (buildDeps env bp wsPath ws deps s).2.log = s.log ++ extra := by
  intro deps
  induction deps with
  | nil => intro s; exact ⟨[], by simp [buildDeps]⟩
  | cons d rest ih =>
    intro s
    simp only [buildDeps]
    cases hf : ws.find d with
    | none => exact ih s
    | some repo =>
      simp only
      by_cases hdir : isNotExist env s.world (env.join wsPath repo.Path) = true
      · rw [if_pos hdir]
        obtain ⟨e2, h2⟩ := ih (say ("[skip] " ++ d ++ " (not cloned)\n\n") s)
        refine ⟨[Event.print ("[skip] " ++ d ++ " (not cloned)\n\n")] ++ e2, ?_⟩
        rw [h2]
        simp only [say, List.append_assoc]
      · rw [if_neg hdir]
        obtain ⟨e1, h1, _⟩ := buildRepo_log env bp wsPath ws d s
        rcases hb : buildRepo env bp wsPath ws d s with ⟨_ | err, s2⟩
        · rw [hb] at h1
          simp only at h1 ⊢
          obtain ⟨e2, h2⟩ := ih (say "\n" s2)
          refine ⟨e1 ++ ([Event.print "\n"] ++ e2), ?_⟩
          rw [h2]
          simp only [say, h1, List.append_assoc]
        · rw [hb] at h1
          exact ⟨e1, h1⟩

/-- When no shell command failed among the events of the loop over the dependencies, the
loop returned no error and did what the specification's build cycles do. -/
theorem buildDeps_cycles {σ : Type} (env : Env σ) (bp : Bool) (wsPath : String)
    (ws : Workspace) :
    ∀ (deps : List String) (s : Sys σ) (extra : List Event),
      (∀ d ∈ deps, ws.has d = true) →
      (buildDeps env bp wsPath ws deps s).2.log = s.log ++ extra →
      (∀ dir c e, Event.shell dir c (some e) ∉ extra) →
      buildDeps env bp wsPath ws deps s = (none, buildCycles env bp wsPath ws deps s) := by
  intro deps
  induction deps with
  | nil => intro s extra _ _ _; rfl
  | cons d rest ih =>
    intro s extra hreg hlog hno
    have hd := hreg d (List.mem_cons_self _ _)
    have hrest : ∀ x ∈ rest, ws.has x = true :=
      fun x hx => hreg x (List.mem_cons_of_mem _ hx)
    simp only [buildDeps, buildCycles] at hlog ⊢
    cases hf : ws.find d with
    | none => simp [Workspace.has, hf] at hd
    | some repo =>
      have hget : (ws.get d).Path = repo.Path := by simp [Workspace.get, hf]
      rw [hf] at hlog
      simp only [hget] at hlog ⊢
      by_cases hdir : isNotExist env s.world (env.join wsPath repo.Path) = true
      · rw [if_pos hdir] at hlog ⊢
        rw [if_pos hdir]
        obtain ⟨e2, h2⟩ := buildDeps_log env bp wsPath ws rest
          (say ("[skip] " ++ d ++ " (not cloned)\n\n") s)
        refine ih _ e2 hrest h2 ?_
        intro dir c e he
        rw [h2] at hlog
        simp only [say, List.append_assoc] at hlog
        have := List.append_cancel_left hlog
        exact hno dir c e (by rw [← this]; simp [he])
      · rw [if_neg hdir] at hlog ⊢
        rw [if_neg hdir]
        obtain ⟨e1, h1, hfail⟩ := buildRepo_log env bp wsPath ws d s
        rcases hb : buildRepo env bp wsPath ws d s with ⟨_ | err, s2⟩
        · rw [hb] at hlog h1
          simp only at hlog h1 ⊢
          obtain ⟨e2, h2⟩ := buildDeps_log env bp wsPath ws rest (say "\n" s2)
          refine ih _ e2 hrest h2 ?_
          intro dir c e he
          rw [h2] at hlog
          simp only [say, h1, List.append_assoc] at hlog
          have := List.append_cancel_left hlog
          exact hno dir c e (by rw [← this]; simp [he])
        · rw [hb] at hlog h1
          simp only at hlog h1
          rw [h1] at hlog
          have := List.append_cancel_left hlog
          subst this
          obtain ⟨dir, c, e, he⟩ := hfail repo err hf (by simpa using hdir) (by rw [hb])
          exact absurd he (hno dir c e)

/-- The pre-build step starts with the banner and runs no shell command. -/
theorem preBuild_banner {σ : Type} (env : Env σ) (bp : Bool) (wsPath : String)
    (ws : Workspace) (name : String) (s : Sys σ) :
    ∃ rest, (preBuild env bp wsPath ws name s).log =
        s.log ++ Event.print ("=== Building " ++ name ++ " ===\n") :: rest ∧
      ∀ e ∈ rest, e.isShell = false := by
  unfold preBuild
  simp only
  split
  · obtain ⟨extra, h, hns⟩ := autoLinkDependencies_log env wsPath ws name
      (say ("=== Building " ++ name ++ " ===\n") s)
    split
    · rename_i err s2 heq
      rw [heq] at h
      simp only [say, List.append_assoc, List.singleton_append] at h
      refine ⟨extra ++ [Event.print ("Warning: dependency linking issue: " ++ err ++ "\n")],
        ?_, ?_⟩
      · simp only [say, h, List.append_assoc, List.cons_append]
      · intro e he
        rcases List.mem_append.mp he with he | he
        · exact hns e he
        · rw [List.mem_singleton.mp he]; rfl
    · rename_i s2 heq
      rw [heq] at h
      simp only [say, List.append_assoc, List.singleton_append] at h
      exact ⟨extra, h, hns⟩
  · exact ⟨[], rfl, by simp⟩

/-- One build cycle of a registered repository whose directory is not missing: it starts
with the banner; its shell events are the one run of the resolved command, or none when
there is no command; and it returns `nil` unless that run failed. -/
theorem buildRepo_cycle {σ : Type} (env : Env σ) (bp : Bool) (wsPath : String)
    (ws : Workspace) (name : String) (repo : RepoDef) (s : Sys σ)
    (hreg : ws.find name = some repo)
    (hdir : isNotExist env s.world (env.join wsPath repo.Path) = false) :
    ∃ rest,
      (buildRepo env bp wsPath ws name s).2.log =
        s.log ++ Event.print ("=== Building " ++ name ++ " ===\n") :: rest ∧
      rest.filter Event.isShell =
        (if getBuildCommand env (preBuild env bp wsPath ws name s).world name repo
            (env.join wsPath repo.Path) = "" then []
          else [Event.shell (env.join wsPath repo.Path)
            (getBuildCommand env (preBuild env bp wsPath ws name s).world name repo
              (env.join wsPath repo.Path))
            (env.run (preBuild env bp wsPath ws name s).world (env.join wsPath repo.Path)
              (getBuildCommand env (preBuild env bp wsPath ws name s).world name repo
                (env.join wsPath repo.Path))).1]) ∧
      ((env.run (preBuild env bp wsPath ws name s).world (env.join wsPath repo.Path)
          (getBuildCommand env (preBuild env bp wsPath ws name s).world name repo
            (env.join wsPath repo.Path))).1 = none →
        (buildRepo env bp wsPath ws name s).1 = none) ∧
      (getBuildCommand env (preBuild env bp wsPath ws name s).world name repo
          (env.join wsPath repo.Path) = "" →
        (buildRepo env bp wsPath ws name s).1 = none) := by
  obtain ⟨e1, hlog1, hns1⟩ := preBuild_banner env bp wsPath ws name s
  have hf1 := filter_isShell_nil e1 hns1
  unfold buildRepo
  rw [hreg]
  simp only [hdir, Bool.false_eq_true, ↓reduceIte]
  by_cases hc : getBuildCommand env (preBuild env bp wsPath ws name s).world name repo
      (env.join wsPath repo.Path) = ""
  · rw [if_pos hc, if_pos hc]
    refine ⟨e1 ++ [Event.print ("No build command for '" ++ name ++ "' — skipping\n")],
      ?_, ?_, fun _ => rfl, fun _ => rfl⟩
    · simp only [say, hlog1, List.append_assoc, List.cons_append]
    · simp [List.filter_append, hf1, List.filter_cons, Event.isShell]
  · rw [if_neg hc, if_neg hc]
    rcases hrun : runShell env (env.join wsPath repo.Path)
        (getBuildCommand env (preBuild env bp wsPath ws name s).world name repo
          (env.join wsPath repo.Path))
        (say ("Running: " ++ getBuildCommand env (preBuild env bp wsPath ws name s).world
          name repo (env.join wsPath repo.Path) ++ "\n")
          (preBuild env bp wsPath ws name s))
      with ⟨_ | err, s2⟩
    · obtain ⟨hlog2, hw2⟩ := runShell_log env _ _ _ _ _ hrun
      obtain ⟨e3, hlog3, hns3⟩ := postBuild_log env bp wsPath ws name s2
      have hf3 := filter_isShell_nil e3 hns3
      simp only [say] at hw2 hlog2
      refine ⟨e1 ++ [Event.print ("Running: " ++
          getBuildCommand env (preBuild env bp wsPath ws name s).world name repo
            (env.join wsPath repo.Path) ++ "\n"),
        Event.shell (env.join wsPath repo.Path)
          (getBuildCommand env (preBuild env bp wsPath ws name s).world name repo
            (env.join wsPath repo.Path)) none] ++ e3, ?_, ?_, fun _ => rfl, fun _ => rfl⟩
      · simp only [hlog3, hlog2, hlog1, List.append_assoc, List.singleton_append,
          List.cons_append, List.nil_append]
      · rw [hw2]
        simp [List.filter_append, hf1, hf3, List.filter_cons, Event.isShell]
    · obtain ⟨hlog2, hw2⟩ := runShell_log env _ _ _ _ _ hrun
      simp only [say] at hw2 hlog2
      refine ⟨e1 ++ [Event.print ("Running: " ++
          getBuildCommand env (preBuild env bp wsPath ws name s).world name repo
            (env.join wsPath repo.Path) ++ "\n"),
        Event.shell (env.join wsPath repo.Path)
          (getBuildCommand env (preBuild env bp wsPath ws name s).world name repo
            (env.join wsPath repo.Path)) (some err)], ?_, ?_, ?_, ?_⟩
      · simp only [hlog2, hlog1, List.append_assoc, List.singleton_append,
          List.cons_append, List.nil_append]
      · rw [hw2]
        simp [List.filter_append, hf1, List.filter_cons, Event.isShell]
      · intro h
        rw [hw2] at h
        simp at h
      · intro h
        exact absurd h hc

/-- C10 as stated fails: in the recursive build of `AppAPI` over `wsMA`, with the
directory of `AppAPI` missing, no shell command fails (the only one, the build of
`AppModel`, succeeds), yet `buildRecursively` returns the directory error of `buildRepo`
and the build command of `AppAPI` is never run. -/
theorem buildRecursively_target_missing :
    buildRecursively simEnv false "/ws" wsMA "AppAPI"
      { world := { absent := ["/ws/AppAPI"] }, log := [] } =
      (some "repo directory /ws/AppAPI does not exist",
        { world := { absent := ["/ws/AppAPI"] },
          log := [Event.print "Building dependencies first: [AppModel]\n\n",
            Event.print "=== Building AppModel ===\n",
            Event.print "Running: npm run build:all\n",
            Event.shell "/ws/AppModel" "npm run build:all" none,
            Event.print "[ok] AppModel built successfully\n",
            Event.print "\n"] }) := by
  decide

/-- C10, amended: in a recursive build none of whose shell commands failed, with the
target registered and its directory not missing when its build is reached, the loop over
the resolved dependencies returns no error and is the sequence of build cycles of the
specification (in the order of `getDependencies`, a dependency whose directory is missing
is skipped with a notice and every other one gets a full `buildRepo`); the build cycle of
the target follows, from the state those cycles left: it prints its banner, its build
command, when there is one, is the one shell command run after the cycles and succeeds,
and `buildRecursively` returns `nil`. -/
theorem buildRecursively_sequence {σ : Type} (env : Env σ) (bp : Bool) (wsPath : String)
    (ws : Workspace) (target : String) (repo : RepoDef) (s : Sys σ) (extra : List Event)
    (hlog : (buildRecursively env bp wsPath ws target s).2.log = s.log ++ extra)
    (hno : ∀ dir c e, Event.shell dir c (some e) ∉ extra)
    (hreg : ws.find target = some repo)
    (hdir : isNotExist env
      (buildCycles env bp wsPath ws (getDependencies ws target)
        (announce (getDependencies ws target) s)).world
      (env.join wsPath repo.Path) = false) :
    buildDeps env bp wsPath ws (getDependencies ws target)
        (announce (getDependencies ws target) s) =
      (none, buildCycles env bp wsPath ws (getDependencies ws target)
        (announce (getDependencies ws target) s)) ∧
    buildRecursively env bp wsPath ws target s =
      buildRepo env bp wsPath ws target
        (buildCycles env bp wsPath ws (getDependencies ws target)
          (announce (getDependencies ws target) s)) ∧
    (buildRecursively env bp wsPath ws target s).1 = none ∧
    ∃ rest,
      (buildRecursively env bp wsPath ws target s).2.log =
        (buildCycles env bp wsPath ws (getDependencies ws target)
          (announce (getDependencies ws target) s)).log ++
          Event.print ("=== Building " ++ target ++ " ===\n") :: rest ∧
      rest.filter Event.isShell =
        (if getBuildCommand env
            (preBuild env bp wsPath ws target
              (buildCycles env bp wsPath ws (getDependencies ws target)
                (announce (getDependencies ws target) s))).world
            target repo (env.join wsPath repo.Path) = "" then []
          else [Event.shell (env.join wsPath repo.Path)
            (getBuildCommand env
              (preBuild env bp wsPath ws target
                (buildCycles env bp wsPath ws (getDependencies ws target)
                  (announce (getDependencies ws target) s))).world
              target repo (env.join wsPath repo.Path)) none]) := by
  have hann : ∃ e0, (announce (getDependencies ws target) s).log = s.log ++ e0 := by
    unfold announce
    split
    · exact ⟨_, rfl⟩
    · exact ⟨[], by simp⟩
  obtain ⟨e0, h0⟩ := hann
  obtain ⟨e1, h1⟩ := buildDeps_log env bp wsPath ws (getDependencies ws target)
    (announce (getDependencies ws target) s)
  have hloop : buildDeps env bp wsPath ws (getDependencies ws target)
      (announce (getDependencies ws target) s) =
      (none, buildCycles env bp wsPath ws (getDependencies ws target)
        (announce (getDependencies ws target) s)) := by
    refine buildDeps_cycles env bp wsPath ws _ _ e1
      (fun d hd => getDependencies_registered ws target d hd) h1 ?_
    intro dir c e he
    rw [buildRecursively_loop] at hlog
    rcases hb : buildDeps env bp wsPath ws (getDependencies ws target)
        (announce (getDependencies ws target) s) with ⟨_ | err, s2⟩
    · rw [hb] at hlog h1
      simp only at hlog h1
      obtain ⟨e2, h2, _⟩ := buildRepo_log env bp wsPath ws target s2
      rw [h2, h1, h0, List.append_assoc, List.append_assoc] at hlog
      have := List.append_cancel_left hlog
      exact hno dir c e (by rw [← this]; simp [he])
    · rw [hb] at hlog h1
      simp only at hlog h1
      rw [h1, h0, List.append_assoc] at hlog
      have := List.append_cancel_left hlog
      exact hno dir c e (by rw [← this]; simp [he])
  have heq : buildRecursively env bp wsPath ws target s =
      buildRepo env bp wsPath ws target
        (buildCycles env bp wsPath ws (getDependencies ws target)
          (announce (getDependencies ws target) s)) := by
    rw [buildRecursively_loop, hloop]
  obtain ⟨rest, hrest, hsh, hok, hempty⟩ := buildRepo_cycle env bp wsPath ws target repo
    (buildCycles env bp wsPath ws (getDependencies ws target)
      (announce (getDependencies ws target) s)) hreg hdir
  rw [hloop] at h1
  simp only at h1
  -- every event of the target's cycle is an event of the run
  have hsub : ∀ ev ∈ rest, ev ∈ extra := by
    intro ev hev
    rw [heq, hrest, h1, h0, List.append_assoc, List.append_assoc] at hlog
    have := List.append_cancel_left hlog
    rw [← this]
    simp [hev]
  refine ⟨hloop, heq, ?_, rest, by rw [heq]; exact hrest, ?_⟩
  · rw [heq]
    by_cases hc : getBuildCommand env
        (preBuild env bp wsPath ws target
          (buildCycles env bp wsPath ws (getDependencies ws target)
            (announce (getDependencies ws target) s))).world
        target repo (env.join wsPath repo.Path) = ""
    · exact hempty hc
    · apply hok
      rw [if_neg hc] at hsh
      cases hr : (env.run (preBuild env bp wsPath ws target
          (buildCycles env bp wsPath ws (getDependencies ws target)
            (announce (getDependencies ws target) s))).world (env.join wsPath repo.Path)
          (getBuildCommand env
            (preBuild env bp wsPath ws target
              (buildCycles env bp wsPath ws (getDependencies ws target)
                (announce (getDependencies ws target) s))).world
            target repo (env.join wsPath repo.Path))).1 with
      | none => rfl
      | some e =>
        rw [hr] at hsh
        have hmem : Event.shell (env.join wsPath repo.Path)
            (getBuildCommand env
              (preBuild env bp wsPath ws target
                (buildCycles env bp wsPath ws (getDependencies ws target)
                  (announce (getDependencies ws target) s))).world
              target repo (env.join wsPath repo.Path)) (some e) ∈
            rest.filter Event.isShell := by
          rw [hsh]; exact List.mem_singleton_self _
        exact absurd (hsub _ (List.mem_filter.mp hmem).1) (hno _ _ _)
  · by_cases hc : getBuildCommand env
        (preBuild env bp wsPath ws target
          (buildCycles env bp wsPath ws (getDependencies ws target)
            (announce (getDependencies ws target) s))).world
        target repo (env.join wsPath repo.Path) = ""
    · rw [if_pos hc] at hsh ⊢
      exact hsh
    · rw [if_neg hc] at hsh ⊢
      cases hr : (env.run (preBuild env bp wsPath ws target
          (buildCycles env bp wsPath ws (getDependencies ws target)
            (announce (getDependencies ws target) s))).world (env.join wsPath repo.Path)
          (getBuildCommand env
            (preBuild env bp wsPath ws target
              (buildCycles env bp wsPath ws (getDependencies ws target)
                (announce (getDependencies ws target) s))).world
            target repo (env.join wsPath repo.Path))).1 with
      | none => rw [hr] at hsh; exact hsh
      | some e =>
        rw [hr] at hsh
        have hmem : Event.shell (env.join wsPath repo.Path)
            (getBuildCommand env
              (preBuild env bp wsPath ws target
                (buildCycles env bp wsPath ws (getDependencies ws target)
                  (announce (getDependencies ws target) s))).world
              target repo (env.join wsPath repo.Path)) (some e) ∈
            rest.filter Event.isShell := by
          rw [hsh]; exact List.mem_singleton_self _
        exact absurd (hsub _ (List.mem_filter.mp hmem).1) (hno _ _ _)

/-- C10, amended, at a concrete input: the recursive build of `AppAPI` when the directory
of its dependency `AppModel` is missing; `AppModel` is skipped, `AppAPI` is built, and
the whole returns `nil`. -/
theorem buildRecursively_sequence_witness :
    (buildRecursively simEnv false "/ws" wsMA "AppAPI"
      { world := { absent := ["/ws/AppModel"] }, log := [] }).2.log =
      [Event.print "Building dependencies first: [AppModel]\n\n",
        Event.print "[skip] AppModel (not cloned)\n\n",
        Event.print "=== Building AppAPI ===\n",
        Event.print "Using published @spark-rewards/sra-sdk (local not built)\n",
        Event.print "Running: npm run build\n",
        Event.shell "/ws/AppAPI" "npm run build" none,
        Event.print "[ok] AppAPI built successfully\n"] ∧
    (buildRecursively simEnv false "/ws" wsMA "AppAPI"
        { world := { absent := ["/ws/AppModel"] }, log := [] }).1 = none ∧
    buildRecursively simEnv false "/ws" wsMA "AppAPI"
        { world := { absent := ["/ws/AppModel"] }, log := [] } =
      buildRepo simEnv false "/ws" wsMA "AppAPI"
        (buildCycles simEnv false "/ws" wsMA (getDependencies wsMA "AppAPI")
          (announce (getDependencies wsMA "AppAPI")
            { world := { absent := ["/ws/AppModel"] }, log := [] })) :=
  ⟨by decide,
    (buildRecursively_sequence simEnv false "/ws" wsMA "AppAPI" { Path := "AppAPI" }
      { world := { absent := ["/ws/AppModel"] }, log := [] }
      [Event.print "Building dependencies first: [AppModel]\n\n",
        Event.print "[skip] AppModel (not cloned)\n\n",
        Event.print "=== Building AppAPI ===\n",
        Event.print "Using published @spark-rewards/sra-sdk (local not built)\n",
        Event.print "Running: npm run build\n",
        Event.shell "/ws/AppAPI" "npm run build" none,
        Event.print "[ok] AppAPI built successfully\n"]
      (by decide) (by simp) (by decide) (by decide)).2.2.1,
    (buildRecursively_sequence simEnv false "/ws" wsMA "AppAPI" { Path := "AppAPI" }
      { world := { absent := ["/ws/AppModel"] }, log := [] }
      [Event.print "Building dependencies first: [AppModel]\n\n",
        Event.print "[skip] AppModel (not cloned)\n\n",
        Event.print "=== Building AppAPI ===\n",
        Event.print "Using published @spark-rewards/sra-sdk (local not built)\n",
        Event.print "Running: npm run build\n",
        Event.shell "/ws/AppAPI" "npm run build" none,
        Event.print "[ok] AppAPI built successfully\n"]
      (by decide) (by simp) (by decide) (by decide)).2.1⟩

end Spark
